import Mathlib

/-!
Verification of the metrics pipeline of the code-performance-visualizer
repository (Node/Express server + React client).

The JavaScript source is shallowly embedded: JS numbers are modelled as
rationals (ℚ), JS arrays as lists, insertion-ordered JS objects / Maps as
insertion-ordered association lists, and integer-keyed JS objects (whose
`Object.values` enumeration is ascending by key) as lists kept sorted by
the numeric key.  Fallible operations return `Option`.
-/

/-- A `functionCalls` entry as produced by the language handlers and consumed
by `metricsService.js`.  `caller` is `none` when the field is absent.
`duration` is a JS number, modelled as ℚ. -/
structure FCall where
  name : String
  caller : Option String
  duration : ℚ
  deriving DecidableEq

/-- A `memoryUsage` sample; only the fields read by `calculateSummaryMetrics`
(`value`) and `processMemoryData` (`timestamp`) are carried. -/
structure MemSample where
  timestamp : ℚ
  value : ℚ
  deriving DecidableEq

/-- An `executionFlow` step (`{timestamp, line, code, duration}`) as emitted by
the instrumentation templates.  `duration` is optional because
`processExecutionFlow` guards it with `step.duration || 0`. -/
structure FlowStep where
  line : Nat
  code : String
  timestamp : ℚ
  duration : Option ℚ
  deriving DecidableEq

/-- A `variableStates` entry (`{timestamp, name, value, type, line}`). -/
structure VarState where
  timestamp : ℚ
  name : String
  value : String
  typeName : String
  line : Nat
  deriving DecidableEq

/-- The raw metrics object assembled by `codeExecutionService.executeCode`
(src/server/services/codeExecutionService.js) and handed to
`metricsService.processMetrics`. -/
structure RawMetrics where
  executionTime : ℚ
  memoryUsage : List MemSample
  functionCalls : List FCall
  variableStates : List VarState
  executionFlow : List FlowStep
  deriving DecidableEq

/-- Result shape of `calculateSummaryMetrics`
(src/server/services/metricsService.js lines 89-96). -/
structure Summary where
  executionTime : ℚ
  peakMemory : ℚ
  totalFunctionCalls : Nat
  uniqueFunctions : Nat
  mostExpensiveFunction : Option String
  mostExpensiveFunctionTime : ℚ
  deriving DecidableEq

/-- `metrics.memoryUsage.reduce((max, point) => point.value > max ? point.value : max, 0)`
(metricsService.js lines 59-60). -/
def peakMemoryOf (memoryUsage : List MemSample) : ℚ :=
  memoryUsage.foldl (fun m p => if p.value > m then p.value else m) 0

/-- One step of building the `functionTimes` object (metricsService.js lines
71-77): `functionTimes[call.name] += call.duration`, creating the key when
absent.  A JS object iterated with `Object.entries` over non-numeric string
keys enumerates in insertion order, so it is modelled as an
insertion-ordered association list.  (The JS guard `!functionTimes[call.name]`
is also true when the stored value is `0`, but re-initialising `0` to `0` is
the identity, so keying on presence is equivalent.) -/
def addCallTime (acc : List (String × ℚ)) (call : FCall) : List (String × ℚ) :=
  if acc.any (fun p => p.1 == call.name) then
    acc.map (fun p => if p.1 == call.name then (p.1, p.2 + call.duration) else p)
  else
    acc ++ [(call.name, call.duration)]

/-- The `functionTimes` accumulation loop of `calculateSummaryMetrics`. -/
def functionTimes (functionCalls : List FCall) : List (String × ℚ) :=
  functionCalls.foldl addCallTime []

/-- The `mostExpensiveFunction` selection loop (metricsService.js lines
79-87): fold over `Object.entries(functionTimes)` starting from
`(null, 0)`, replacing the best entry only on a strictly greater time. -/
def pickMostExpensive (times : List (String × ℚ)) : Option String × ℚ :=
  times.foldl (fun best p => if p.2 > best.2 then (some p.1, p.2) else best) (none, 0)

/-- `calculateSummaryMetrics` (metricsService.js lines 57-97).
`uniqueFunctions` mirrors `new Set(metrics.functionCalls.map(call => call.name)).size`;
`List.dedup` has the same length as the set of distinct names. -/
def calculateSummaryMetrics (metrics : RawMetrics) : Summary :=
  let functionTimesList := functionTimes metrics.functionCalls
  let best := pickMostExpensive functionTimesList
  { executionTime := metrics.executionTime
    peakMemory := peakMemoryOf metrics.memoryUsage
    totalFunctionCalls := metrics.functionCalls.length
    uniqueFunctions := (metrics.functionCalls.map (·.name)).dedup.length
    mostExpensiveFunction := best.1
    mostExpensiveFunctionTime := best.2 }

/-- `calculatePercentChange` (metricsService.js lines 236-239). -/
def calculatePercentChange (oldValue newValue : ℚ) : ℚ :=
  if oldValue = 0 then (if newValue = 0 then 0 else 100)
  else (newValue - oldValue) / oldValue * 100

/-- One `{diff, percentChange}` block of the comparison object. -/
structure MetricDelta where
  diff : ℚ
  percentChange : ℚ
  deriving DecidableEq

/-- The verdict strings `'code1' | 'code2' | 'tie'` returned by
`determineOverallImprovement`. -/
inductive Verdict where
  | code1
  | code2
  | tie
  deriving DecidableEq

/-- The weighted score accumulated by `determineOverallImprovement`
(metricsService.js lines 244-269): +w when the percent change is negative
(improvement), -w when positive. -/
def weightTerm (w : Int) (percentChange : ℚ) : Int :=
  if percentChange < 0 then w else if percentChange > 0 then -w else 0

/-- `determineOverallImprovement` (metricsService.js lines 244-273), taking the
three `{diff, percentChange}` blocks of the comparison object it reads. -/
def determineOverallImprovement (et mu fc : MetricDelta) : Verdict :=
  let score : Int :=
    weightTerm 3 et.percentChange + weightTerm 2 mu.percentChange +
      weightTerm 1 fc.percentChange
  if score > 0 then .code1 else if score < 0 then .code2 else .tie

/-- The comparison object built by `compareMetrics`. -/
structure Comparison where
  executionTime : MetricDelta
  memoryUsage : MetricDelta
  functionCalls : MetricDelta
  overallImprovement : Verdict
  deriving DecidableEq

/-- `compareMetrics` (metricsService.js lines 22-51).  It reads exactly the
three summary fields `executionTime`, `peakMemory`, `totalFunctionCalls` of the
two processed runs; `totalFunctionCalls` (a JS number) is cast to ℚ. -/
def compareMetrics (m1 m2 : Summary) : Comparison :=
  let et : MetricDelta :=
    { diff := m2.executionTime - m1.executionTime
      percentChange := calculatePercentChange m1.executionTime m2.executionTime }
  let mu : MetricDelta :=
    { diff := m2.peakMemory - m1.peakMemory
      percentChange := calculatePercentChange m1.peakMemory m2.peakMemory }
  let fc : MetricDelta :=
    { diff := (m2.totalFunctionCalls : ℚ) - (m1.totalFunctionCalls : ℚ)
      percentChange :=
        calculatePercentChange (m1.totalFunctionCalls : ℚ) (m2.totalFunctionCalls : ℚ) }
  { executionTime := et
    memoryUsage := mu
    functionCalls := fc
    overallImprovement := determineOverallImprovement et mu fc }

/-- The per-line accumulator object of `processExecutionFlow`
(metricsService.js lines 182-198). -/
structure LineGroup where
  line : Nat
  code : String
  executionCount : Nat
  totalTime : ℚ
  timestamps : List ℚ
  deriving DecidableEq

/-- A heatmap row of the server aggregator: a `LineGroup` spread together with
`averageTime` (metricsService.js lines 201-204). -/
structure LineStat where
  line : Nat
  code : String
  executionCount : Nat
  totalTime : ℚ
  timestamps : List ℚ
  averageTime : ℚ
  deriving DecidableEq

/-- The group created on first sight of a line (fields initialised at
metricsService.js lines 186-192, then immediately incremented). -/
def newLineGroup (s : FlowStep) : LineGroup :=
  { line := s.line, code := s.code, executionCount := 1
    totalTime := s.duration.getD 0, timestamps := [s.timestamp] }

/-- Folding one step into the `lineExecutions` object.  The object is keyed by
the numeric `step.line`, and `Object.values` on integer-like keys enumerates in
ascending key order, so the object is modelled as an association list kept
sorted by `line`.  `s.duration.getD 0` is `step.duration || 0`. -/
def insertFlowStep : List LineGroup → FlowStep → List LineGroup
  | [], s => [newLineGroup s]
  | g :: rest, s =>
    if g.line = s.line then
      { g with executionCount := g.executionCount + 1
               totalTime := g.totalTime + s.duration.getD 0
               timestamps := g.timestamps ++ [s.timestamp] } :: rest
    else if s.line < g.line then
      newLineGroup s :: g :: rest
    else
      g :: insertFlowStep rest s

/-- The grouping loop of `processExecutionFlow` (metricsService.js lines
182-198). -/
def groupExecutionFlow (executionFlow : List FlowStep) : List LineGroup :=
  executionFlow.foldl insertFlowStep []

/-- `processExecutionFlow` (metricsService.js lines 180-205): group by line,
then map each group to itself plus `averageTime = totalTime / executionCount`.
No sorting by duration and no `executionCount > 1` filtering happens here. -/
def processExecutionFlow (executionFlow : List FlowStep) : List LineStat :=
  (groupExecutionFlow executionFlow).map (fun g =>
    { line := g.line, code := g.code, executionCount := g.executionCount
      totalTime := g.totalTime, timestamps := g.timestamps
      averageTime := g.totalTime / (g.executionCount : ℚ) })

/-- The client-side per-line group of `generateHeatmapData`
(src/components/Visualizations/TimeComplexity.jsx): `{line, code, executions}`
with one `{time, duration}` pair per step. -/
structure ClientLineGroup where
  line : Nat
  code : String
  executions : List (ℚ × ℚ)
  deriving DecidableEq

/-- A heatmap row of the client component: `{line, code, executionCount,
totalDuration, avgDuration}`.  The display-only `intensity` field
(`Math.log(count)/Math.log(10)`, a float) is outside the rational embedding
and is not carried. -/
structure HeatEntry where
  line : Nat
  code : String
  executionCount : Nat
  totalDuration : ℚ
  avgDuration : ℚ
  deriving DecidableEq

/-- Folding one step into the client `lineGroups` object (same integer-keyed
object pattern as the server aggregator). -/
def insertClientStep : List ClientLineGroup → FlowStep → List ClientLineGroup
  | [], s => [{ line := s.line, code := s.code, executions := [(s.timestamp, s.duration.getD 0)] }]
  | g :: rest, s =>
    if g.line = s.line then
      { g with executions := g.executions ++ [(s.timestamp, s.duration.getD 0)] } :: rest
    else if s.line < g.line then
      { line := s.line, code := s.code, executions := [(s.timestamp, s.duration.getD 0)] } :: g :: rest
    else
      g :: insertClientStep rest s

/-- Descending insertion by `totalDuration`, modelling
`data.sort((a, b) => b.totalDuration - a.totalDuration)`. -/
def insertByDurationDesc (e : HeatEntry) : List HeatEntry → List HeatEntry
  | [] => [e]
  | x :: xs =>
    if x.totalDuration < e.totalDuration then e :: x :: xs
    else x :: insertByDurationDesc e xs

/-- Sort a heatmap descending by `totalDuration`. -/
def sortByDurationDesc (l : List HeatEntry) : List HeatEntry :=
  l.foldr insertByDurationDesc []

/-- `generateHeatmapData` of the client `TimeComplexity` component: group the
execution flow by line, keep only groups executed more than once, compute
totals and averages, and sort descending by `totalDuration`. -/
def generateHeatmapData (executionFlow : List FlowStep) : List HeatEntry :=
  let groups := executionFlow.foldl insertClientStep []
  let data := (groups.filter (fun g => g.executions.length > 1)).map (fun g =>
    { line := g.line, code := g.code
      executionCount := g.executions.length
      totalDuration := (g.executions.map (·.2)).sum
      avgDuration := (g.executions.map (·.2)).sum / (g.executions.length : ℚ) })
  sortByDurationDesc data

/-- A deduplicated call-graph edge accumulated in `callCountMap`
(metricsService.js lines 147-158). -/
structure EdgeAcc where
  source : String
  target : String
  count : Nat
  totalDuration : ℚ
  deriving DecidableEq

/-- An emitted call-graph link (metricsService.js lines 162-169).  Note the
emitted object carries only `source`, `target`, `count` and `averageDuration`;
the accumulated `totalDuration` is not included. -/
structure GraphLink where
  source : String
  target : String
  count : Nat
  averageDuration : ℚ
  deriving DecidableEq

/-- The emitted call graph: `{nodes: [{id}], links}`.  Nodes are carried as
their `id` strings. -/
structure CallGraph where
  nodes : List String
  links : List GraphLink
  deriving DecidableEq

/-- `call.caller || 'global'` (metricsService.js line 137): an absent or empty
(falsy) caller defaults to `"global"`. -/
def callSource (c : FCall) : String :=
  match c.caller with
  | none => "global"
  | some s => if s = "" then "global" else s

/-- Adding one id to the `nodes` JS `Set` (insertion-ordered, duplicates
ignored). -/
def addNode (nodes : List String) (id : String) : List String :=
  if id ∈ nodes then nodes else nodes ++ [id]

/-- Folding one call into `callCountMap` (metricsService.js lines 144-158):
update the existing `(source, target)` entry or append a new one (JS `Map`
preserves insertion order). -/
def addEdge (acc : List EdgeAcc) (c : FCall) : List EdgeAcc :=
  let s := callSource c
  let t := c.name
  if acc.any (fun e => e.source == s && e.target == t) then
    acc.map (fun e =>
      if e.source == s && e.target == t then
        { e with count := e.count + 1, totalDuration := e.totalDuration + c.duration }
      else e)
  else
    acc ++ [{ source := s, target := t, count := 1, totalDuration := c.duration }]

/-- The `callCountMap` accumulation loop of `generateCallGraph`. -/
def callCountMap (functionCalls : List FCall) : List EdgeAcc :=
  functionCalls.foldl addEdge []

/-- The `nodes` accumulation loop of `generateCallGraph` (lines 140-141):
`nodes.add(source); nodes.add(target)` per call. -/
def callGraphNodes (functionCalls : List FCall) : List String :=
  functionCalls.foldl (fun ns c => addNode (addNode ns (callSource c)) c.name) []

/-- `generateCallGraph` (metricsService.js lines 130-175). -/
def generateCallGraph (functionCalls : List FCall) : CallGraph :=
  { nodes := callGraphNodes functionCalls
    links := (callCountMap functionCalls).map (fun e =>
      { source := e.source, target := e.target, count := e.count
        averageDuration := e.totalDuration / (e.count : ℚ) }) }

/-! ## Instrumented-program emission shape (javascriptHandler / pythonHandler) -/

/-- A framed control line of the out-of-band protocol, abstracted by kind:
a memory sample, any other per-event frame (tagged by its event name), the
final aggregate (`complete`) frame, or the terminal error frame. -/
inductive EmitFrame where
  | memorySample
  | event (tag : String)
  | completeMark
  | errorMark
  deriving DecidableEq

/-- The frames emitted by the wrapper that `instrumentCode` puts around the
user code (javascriptHandler.js lines 142-171 and the identical Python
template, pythonHandler lines 149-150 and 194-215): an initial
`trackMemory()` before the body (a no-op unless `trackMemory`), then
the frames the user body emits before exiting, then — on the normal path —
a final `trackMemory()` and the `complete` frame, or — when the body
raises — only the `error` frame. -/
def instrumentedEmission (trackMemory : Bool) (userFrames : List EmitFrame)
    (userRaises : Bool) : List EmitFrame :=
  (if trackMemory then [EmitFrame.memorySample] else []) ++
    userFrames ++
    (if userRaises then [EmitFrame.errorMark]
     else (if trackMemory then [EmitFrame.memorySample] else []) ++ [EmitFrame.completeMark])

/-- Number of memory-sample frames in an emission. -/
def memCount (l : List EmitFrame) : Nat :=
  l.countP (fun f => f == EmitFrame.memorySample)

/-- Number of terminal (complete or error) frames in an emission. -/
def terminalCount (l : List EmitFrame) : Nat :=
  l.countP (fun f => f == EmitFrame.completeMark || f == EmitFrame.errorMark)

/-! ## Orchestrator dispatch (codeExecutionService.executeCode) -/

/-- The request fields `codeExecutionService.executeCode` dispatches on. -/
structure ExecRequest where
  language : String
  executionId : String
  deriving DecidableEq

/-- The keys of the `languageHandlers` map (codeExecutionService.js lines
10-14). -/
def supportedLanguages : List String := ["javascript", "python"]

/-- Dispatch decision of `executeCode`. -/
inductive DispatchResult where
  | rejectedUnsupported
  | sandboxStarted
  deriving DecidableEq

/-- The admission logic of `codeExecutionService.executeCode`
(codeExecutionService.js lines 23-131): an unsupported language is rejected
with an `execution-error` before any instrumentation; otherwise the handler
is resolved, the code instrumented and a sandbox execution started.  The
service module holds no registry of in-flight execution ids, so the decision
is a function of the request alone; `inFlight` (the multiset of ids with an
active sandbox) is threaded only to express state, and is never read. -/
def executeCodeDispatch (_inFlight : List String) (req : ExecRequest) : DispatchResult :=
  if supportedLanguages.contains req.language then
    DispatchResult.sandboxStarted
  else
    DispatchResult.rejectedUnsupported

/-- Effect of one dispatch on the multiset of active sandbox ids: a started
execution adds one active sandbox for its id; a rejection adds none. -/
def applyDispatch (inFlight : List String) (req : ExecRequest) : List String :=
  match executeCodeDispatch inFlight req with
  | DispatchResult.sandboxStarted => req.executionId :: inFlight
  | DispatchResult.rejectedUnsupported => inFlight

/-! ## Argument / value summarisation (trackFunctionCall, trackVariable) -/

/-- `JSON.stringify(arg).substring(0, 100)` with `'[Complex object]'` on a
serialisation failure (javascriptHandler.js lines 59-65; identically
`json.dumps(arg)[:100]` in the Python template).  Strings are modelled as
character lists; `none` is a failing stringification. -/
def summarizeArg : Option (List Char) → List Char
  | some s => s.take 100
  | none => "[Complex object]".data

/-- The `trackVariable` value summary (javascriptHandler.js lines 83-89;
identically pythonHandler `track_variable`): truncate the serialised value to
100 characters and append `'...'` when the truncation is full length. -/
def summarizeValue : Option (List Char) → List Char
  | some s =>
    let t := s.take 100
    if t.length = 100 then t ++ "...".data else t
  | none => "[Complex object]".data

/-! ## Python runtime message decoding (pythonHandler.executeCode) -/

/-- A decoded JSON value.  Numbers are parsed to ℚ from the JSON grammar
`-?digits(.digits)?([eE][+-]?digits)?`. -/
inductive JsonVal where
  | null
  | boolean (b : Bool)
  | num (q : ℚ)
  | str (s : List Char)
  | arr (elems : List JsonVal)
  | obj (fields : List (List Char × JsonVal))

/-- Whitespace accepted between JSON tokens. -/
def jsonWs (c : Char) : Bool :=
  c = ' ' || c = '\t' || c = '\n' || c = '\r'

/-- Drop leading JSON whitespace. -/
def skipWs (cs : List Char) : List Char :=
  cs.dropWhile jsonWs

/-- Parse a run of decimal digits, returning their value, count and the rest. -/
def parseDigits : List Char → Nat → Nat → (Nat × Nat × List Char)
  | c :: cs, acc, n =>
    if c.isDigit then parseDigits cs (acc * 10 + (c.toNat - 48)) (n + 1)
    else (acc, n, c :: cs)
  | [], acc, n => (acc, n, [])

/-- Hexadecimal digit test for `\uXXXX` escapes. -/
def isHexDig (c : Char) : Bool :=
  c.isDigit || ('a' ≤ c && c ≤ 'f') || ('A' ≤ c && c ≤ 'F')

/-- Parse the characters of a JSON string literal after the opening quote.
An escape accepts the single escaped character (`\uXXXX` consumes four hex
digits). -/
def parseStringChars (fuel : Nat) (cs : List Char) : Option (List Char × List Char) :=
  match fuel, cs with
  | 0, _ => none
  | _, [] => none
  | fuel + 1, c :: cs =>
    if c = '"' then some ([], cs)
    else if c = '\\' then
      match cs with
      | [] => none
      | e :: cs2 =>
        if e = 'u' then
          match cs2 with
          | h1 :: h2 :: h3 :: h4 :: cs3 =>
            if isHexDig h1 && isHexDig h2 && isHexDig h3 && isHexDig h4 then
              match parseStringChars fuel cs3 with
              | some (tail, rest) => some (e :: tail, rest)
              | none => none
            else none
          | _ => none
        else
          match parseStringChars fuel cs2 with
          | some (tail, rest) => some (e :: tail, rest)
          | none => none
    else
      match parseStringChars fuel cs with
      | some (tail, rest) => some (c :: tail, rest)
      | none => none

/-- Parse a JSON number starting at a digit or minus sign. -/
def parseNumber (cs : List Char) : Option (ℚ × List Char) :=
  let (neg, cs1) :=
    match cs with
    | c :: rest => if c = '-' then (true, rest) else (false, cs)
    | [] => (false, cs)
  match cs1 with
  | c :: _ =>
    if c.isDigit then
      let (ip, _, cs2) := parseDigits cs1 0 0
      let (frac, cs3) :=
        match cs2 with
        | d :: rest =>
          if d = '.' then
            match rest with
            | e :: _ =>
              if e.isDigit then
                let (fp, fn, cs4) := parseDigits rest 0 0
                (some ((fp : ℚ) / ((10 : ℚ) ^ fn)), cs4)
              else (none, cs2)
            | [] => (none, cs2)
          else (none, cs2)
        | [] => (none, cs2)
      match frac with
      | none =>
        let base : ℚ := (ip : ℚ)
        some (parseExponent (if neg then -base else base) cs3)
      | some f =>
        let base : ℚ := (ip : ℚ) + f
        some (parseExponent (if neg then -base else base) cs3)
    else none
  | [] => none
where
  /-- Apply an optional `[eE][+-]?digits` exponent to a parsed mantissa. -/
  parseExponent (q : ℚ) (cs : List Char) : ℚ × List Char :=
    match cs with
    | e :: rest =>
      if e = 'e' || e = 'E' then
        let (esign, rest1) :=
          match rest with
          | s :: r2 => if s = '-' then (true, r2) else if s = '+' then (false, r2) else (false, rest)
          | [] => (false, rest)
        match rest1 with
        | d :: _ =>
          if d.isDigit then
            let (ev, _, rest2) := parseDigits rest1 0 0
            (if esign then q / ((10 : ℚ) ^ ev) else q * ((10 : ℚ) ^ ev), rest2)
          else (q, cs)
        | [] => (q, cs)
      else (q, cs)
    | [] => (q, cs)

mutual
/-- Parse one JSON value. -/
def parseValue (fuel : Nat) (cs : List Char) : Option (JsonVal × List Char) :=
  match fuel with
  | 0 => none
  | fuel + 1 =>
    match skipWs cs with
    | [] => none
    | c :: rest =>
      if c = 't' then
        match rest with
        | 'r' :: 'u' :: 'e' :: rest2 => some (JsonVal.boolean true, rest2)
        | _ => none
      else if c = 'f' then
        match rest with
        | 'a' :: 'l' :: 's' :: 'e' :: rest2 => some (JsonVal.boolean false, rest2)
        | _ => none
      else if c = 'n' then
        match rest with
        | 'u' :: 'l' :: 'l' :: rest2 => some (JsonVal.null, rest2)
        | _ => none
      else if c = '"' then
        match parseStringChars (rest.length + 1) rest with
        | some (s, rest2) => some (JsonVal.str s, rest2)
        | none => none
      else if c = '[' then
        match skipWs rest with
        | ']' :: rest2 => some (JsonVal.arr [], rest2)
        | _ =>
          match parseElements fuel rest with
          | some (elems, rest2) => some (JsonVal.arr elems, rest2)
          | none => none
      else if c = '{' then
        match skipWs rest with
        | '}' :: rest2 => some (JsonVal.obj [], rest2)
        | _ =>
          match parseMembers fuel rest with
          | some (fields, rest2) => some (JsonVal.obj fields, rest2)
          | none => none
      else if c = '-' || c.isDigit then
        match parseNumber (c :: rest) with
        | some (q, rest2) => some (JsonVal.num q, rest2)
        | none => none
      else none

/-- Parse comma-separated array elements up to the closing bracket. -/
def parseElements (fuel : Nat) (cs : List Char) : Option (List JsonVal × List Char) :=
  match fuel with
  | 0 => none
  | fuel + 1 =>
    match parseValue fuel cs with
    | none => none
    | some (v, rest) =>
      match skipWs rest with
      | ',' :: rest2 =>
        match parseElements fuel rest2 with
        | some (vs, rest3) => some (v :: vs, rest3)
        | none => none
      | ']' :: rest2 => some ([v], rest2)
      | _ => none

/-- Parse comma-separated object members up to the closing brace. -/
def parseMembers (fuel : Nat) (cs : List Char) : Option (List (List Char × JsonVal) × List Char) :=
  match fuel with
  | 0 => none
  | fuel + 1 =>
    match skipWs cs with
    | '"' :: rest =>
      match parseStringChars (rest.length + 1) rest with
      | none => none
      | some (key, rest2) =>
        match skipWs rest2 with
        | ':' :: rest3 =>
          match parseValue fuel rest3 with
          | none => none
          | some (v, rest4) =>
            match skipWs rest4 with
            | ',' :: rest5 =>
              match parseMembers fuel rest5 with
              | some (fields, rest6) => some ((key, v) :: fields, rest6)
              | none => none
            | '}' :: rest5 => some ([(key, v)], rest5)
            | _ => none
        | _ => none
    | _ => none
end

/-- `JSON.parse`: parse one value and require only whitespace to follow. -/
def parseJson (cs : List Char) : Option JsonVal :=
  match parseValue (cs.length + 1) cs with
  | some (v, rest) => if (skipWs rest).isEmpty then some v else none
  | none => none

/-- `message.startsWith(p)`: `p` is an initial segment of the message. -/
def hasSentinel : List Char → List Char → Bool
  | [], _ => true
  | _ :: _, [] => false
  | p :: ps, c :: cs => p == c && hasSentinel ps cs

/-- The per-event frame sentinel of the Python protocol. -/
def eventSentinel : List Char := "__METRICS_EVENT__".data

/-- The final-aggregate frame sentinel. -/
def completeSentinel : List Char := "__METRICS_COMPLETE__".data

/-- The terminal-error frame sentinel. -/
def errorSentinel : List Char := "__METRICS_ERROR__".data

/-- JS truthiness of a decoded JSON value (`eventData.event && eventData.data`). -/
def jsTruthy : JsonVal → Bool
  | JsonVal.null => false
  | JsonVal.boolean b => b
  | JsonVal.num q => q ≠ 0
  | JsonVal.str s => s ≠ []
  | JsonVal.arr _ => true
  | JsonVal.obj _ => true

/-- First field of a decoded object with the given key (JS property lookup;
`none` for non-objects and absent keys, i.e. `undefined`). -/
def jsonField (v : JsonVal) (key : List Char) : Option JsonVal :=
  match v with
  | JsonVal.obj fields => (fields.find? (fun f => f.1 == key)).map (·.2)
  | _ => none

/-- Truthiness of a possibly-absent field (`undefined` is falsy). -/
def fieldTruthy (v : JsonVal) (key : List Char) : Bool :=
  match jsonField v key with
  | some w => jsTruthy w
  | none => false

/-- Observable effect of the `pyShell.on('message')` handler on one output
line. -/
inductive MsgAction where
  | emitCallback (payload : JsonVal)
  | logContinue
  | setFinal (payload : JsonVal)
  | noEffect
  | callbackAndReject (payload : JsonVal)
  | rejectParseFailure
  | ordinaryOutput

/-- The `pyShell.on('message')` handler of `pythonHandler.executeCode`
(pythonHandler lines 296-347).  A `__METRICS_EVENT__` line whose payload
parses invokes the callback when `eventData.event && eventData.data` are
truthy (otherwise nothing happens); a payload that fails `JSON.parse` is
logged and the run continues.  A `__METRICS_COMPLETE__` line stores the final
payload, or logs and continues on a parse failure.  A `__METRICS_ERROR__`
line invokes the error callback, cleans up and rejects when the payload
parses — and when the payload does NOT parse, the `catch` block logs and then
calls `reject(err)`, aborting the run with the parse error.  Anything else is
ordinary program output. -/
def handleMessage (message : List Char) : MsgAction :=
  if hasSentinel eventSentinel message then
    match parseJson (message.drop eventSentinel.length) with
    | some eventData =>
      if fieldTruthy eventData "event".data && fieldTruthy eventData "data".data then
        MsgAction.emitCallback eventData
      else
        MsgAction.noEffect
    | none => MsgAction.logContinue
  else if hasSentinel completeSentinel message then
    match parseJson (message.drop completeSentinel.length) with
    | some payload => MsgAction.setFinal payload
    | none => MsgAction.logContinue
  else if hasSentinel errorSentinel message then
    match parseJson (message.drop errorSentinel.length) with
    | some errorData => MsgAction.callbackAndReject errorData
    | none => MsgAction.rejectParseFailure
  else
    MsgAction.ordinaryOutput

/-- Whether the action lets the execution keep running (the promise is not
rejected by it).  `callbackAndReject` and `rejectParseFailure` settle the
promise; every other action leaves the run in flight. -/
def actionContinues : MsgAction → Bool
  | MsgAction.callbackAndReject _ => false
  | MsgAction.rejectParseFailure => false
  | _ => true

/-! ## JavaScript variable-reassignment instrumentation (instrumentVariables) -/

/-- `[a-zA-Z_$]`, the chars that may start a JS identifier in the rewrite
regexes of javascriptHandler.js. -/
def identStart (c : Char) : Bool :=
  ('a' ≤ c && c ≤ 'z') || ('A' ≤ c && c ≤ 'Z') || c = '_' || c = '$'

/-- `[a-zA-Z0-9_$]`, the chars that may continue a JS identifier. -/
def identChar (c : Char) : Bool :=
  identStart c || c.isDigit

/-- JS `\s` (the whitespace class), restricted to the ASCII members. -/
def jsSpace (c : Char) : Bool :=
  c = ' ' || c = '\t' || c = '\n' || c = '\r' || c = '\x0b' || c = '\x0c'

/-- Try to match `([a-zA-Z_$][a-zA-Z0-9_$]*)\s*=\s*([^;]*);` at the head of
the input (the reassignment regex of `instrumentVariables`,
javascriptHandler.js line 400).  On success returns the captured name, the
captured value, the full matched text and the remainder.  The greedy
sub-patterns need no backtracking here: an identifier character can satisfy
neither `\s` nor `=`, and `[^;]` can never match `;`. -/
def matchReassign (cs : List Char) : Option (List Char × List Char × List Char × List Char) :=
  match cs with
  | [] => none
  | c :: rest =>
    if identStart c then
      let identRest := rest.takeWhile identChar
      let afterIdent := rest.dropWhile identChar
      let name := c :: identRest
      let sp1 := afterIdent.takeWhile jsSpace
      match afterIdent.dropWhile jsSpace with
      | '=' :: afterEq =>
        let sp2 := afterEq.takeWhile jsSpace
        let afterSp2 := afterEq.dropWhile jsSpace
        let value := afterSp2.takeWhile (fun d => d ≠ ';')
        match afterSp2.dropWhile (fun d => d ≠ ';') with
        | ';' :: remainder =>
          some (name, value, name ++ sp1 ++ '=' :: sp2 ++ value ++ [';'], remainder)
        | _ => none
      | _ => none
    else none

/-- The replacement text the reassignment rewrite injects for a tracked
variable (javascriptHandler.js lines 407-408). -/
def reassignReplacement (name value : List Char) : List Char :=
  name ++ " = ".data ++ value ++ "; \n        __metrics.trackVariable(\"".data ++
    name ++ "\", ".data ++ name ++
    ", new Error().stack.split(\"\\n\")[1].match(/:([0-9]+):/)?.[1] || 0);".data

/-- The scan of `code.replace(/([a-zA-Z_$][a-zA-Z0-9_$]*)\s*=\s*([^;]*);/g, cb)`
(javascriptHandler.js lines 399-410): find each successive leftmost match; the
callback keeps the matched text unchanged when the captured name is `i`, `j`
or `k` and otherwise substitutes the tracked replacement.  Besides the
rewritten text, the list of names for which a `trackVariable` call was
injected is returned.  `fuel` bounds the scan; each step consumes at least one
character, so `cs.length` suffices. -/
def reassignScan (fuel : Nat) (cs : List Char) : List Char × List String :=
  match fuel with
  | 0 => (cs, [])
  | fuel + 1 =>
    match cs with
    | [] => ([], [])
    | c :: rest =>
      match matchReassign (c :: rest) with
      | none =>
        (c :: (reassignScan fuel rest).1, (reassignScan fuel rest).2)
      | some (name, value, matched, remainder) =>
        if name = ['i'] || name = ['j'] || name = ['k'] then
          (matched ++ (reassignScan fuel remainder).1, (reassignScan fuel remainder).2)
        else
          (reassignReplacement name value ++ (reassignScan fuel remainder).1,
            String.mk name :: (reassignScan fuel remainder).2)

/-- The plain-reassignment rewrite pass of `instrumentVariables`: the rewritten
code together with the names of the variables for which it injected a
`__metrics.trackVariable` call (each injected call reports exactly the
captured name, so these are the names of the `VariableState` events this pass
can emit). -/
def instrumentReassignments (code : List Char) : List Char × List String :=
  reassignScan code.length code

/-! ## Specification-side helpers used to state the claims -/

/-- Maximum-by-time selection with ties broken by the earliest entry, the
selection rule the spec words describe for `mostExpensiveFunction`. -/
def firstSeenMax : List (String × ℚ) → Option (String × ℚ)
  | [] => none
  | p :: rest =>
    match firstSeenMax rest with
    | none => some p
    | some q => if q.2 > p.2 then some q else some p

/-- Distinct call names in first-seen order. -/
def firstSeenNames (calls : List FCall) : List String :=
  calls.foldl (fun acc c => if c.name ∈ acc then acc else acc ++ [c.name]) []

/-- Number of calls with the given name. -/
def nameCount (calls : List FCall) (nm : String) : Nat :=
  (calls.filter (fun c => c.name == nm)).length

/-- Cumulative duration of the calls with the given name. -/
def nameSum (calls : List FCall) (nm : String) : ℚ :=
  ((calls.filter (fun c => c.name == nm)).map (·.duration)).sum

/-- Number of calls with the given (source, target) edge key. -/
def edgeCount (calls : List FCall) (s t : String) : Nat :=
  (calls.filter (fun c => callSource c == s && c.name == t)).length

/-- Cumulative duration of the calls with the given (source, target) edge key. -/
def edgeSum (calls : List FCall) (s t : String) : ℚ :=
  ((calls.filter (fun c => callSource c == s && c.name == t)).map (·.duration)).sum

/-- Number of flow steps on the given line. -/
def lineCount (steps : List FlowStep) (L : Nat) : Nat :=
  (steps.filter (fun s => s.line == L)).length

/-- Cumulative `duration || 0` of the flow steps on the given line. -/
def lineSum (steps : List FlowStep) (L : Nat) : ℚ :=
  ((steps.filter (fun s => s.line == L)).map (fun s => s.duration.getD 0)).sum

/-- First entry of `functionTimes` with the given key. -/
def findTime (times : List (String × ℚ)) (nm : String) : Option (String × ℚ) :=
  times.find? (fun p => p.1 == nm)

/-- First accumulated edge with the given (source, target) key. -/
def findEdge (acc : List EdgeAcc) (s t : String) : Option EdgeAcc :=
  acc.find? (fun e => e.source == s && e.target == t)

/-- First group with the given line. -/
def findGroup (groups : List LineGroup) (L : Nat) : Option LineGroup :=
  groups.find? (fun g => g.line == L)

/-- The verdict with the two runs exchanged. -/
def swapVerdict : Verdict → Verdict
  | Verdict.code1 => Verdict.code2
  | Verdict.code2 => Verdict.code1
  | Verdict.tie => Verdict.tie

/-- The synthetic trace of the spec example: 3 `FunctionCall` events for `f`
(durations 10, 20, 30) and 2 for `g` (durations 5, 5). -/
def exampleTrace : RawMetrics :=
  { executionTime := 100
    memoryUsage := []
    functionCalls :=
      [ { name := "f", caller := none, duration := 10 }
      , { name := "g", caller := none, duration := 5 }
      , { name := "f", caller := none, duration := 20 }
      , { name := "g", caller := none, duration := 5 }
      , { name := "f", caller := none, duration := 30 } ]
    variableStates := []
    executionFlow := [] }

/-- The heatmap example trace: one `LineExecution` for line 4 and three for
line 7. -/
def exampleFlow : List FlowStep :=
  [ { line := 4, code := "a", timestamp := 0, duration := some 1 }
  , { line := 7, code := "b", timestamp := 1, duration := some 2 }
  , { line := 7, code := "b", timestamp := 2, duration := some 3 }
  , { line := 7, code := "b", timestamp := 3, duration := some 4 } ]

/-! ## Theorems -/

/-- Claim C9: `calculatePercentChange` is total and never divides by zero:
when the old value is 0 it returns 0 if the new value is also 0 and 100
otherwise; when the old value is nonzero it returns
`((new − old) / old) × 100`. -/
theorem claim9_percent_change (o n : ℚ) :
    (o = 0 → n = 0 → calculatePercentChange o n = 0) ∧
    (o = 0 → n ≠ 0 → calculatePercentChange o n = 100) ∧
    (o ≠ 0 → calculatePercentChange o n = (n - o) / o * 100) := by
  refine ⟨fun h1 h2 => ?_, fun h1 h2 => ?_, fun h1 => ?_⟩
  · simp [calculatePercentChange, h1, h2]
  · simp [calculatePercentChange, h1, h2]
  · simp [calculatePercentChange, h1]

/-- Witness for C9 at the concrete inputs (0, 5) and (10, 5). -/
theorem claim9_witness :
    calculatePercentChange 0 5 = 100 ∧ calculatePercentChange 10 5 = (5 - 10) / 10 * 100 :=
  ⟨(claim9_percent_change 0 5).2.1 rfl (by norm_num),
   (claim9_percent_change 10 5).2.2 (by norm_num)⟩

/-- Claim C7, counterexample: a variable whose serialised value is 200
characters long gets a `valueSummary` of 103 characters (100 plus the
appended `'...'`), refuting the 100-character bound for `VariableState`
value summaries. -/
theorem claim7_counterexample :
    100 < (summarizeValue (some (List.replicate 200 'a'))).length := by
  decide

/-- Claim C7 (amended): every `FunctionCall` argument summary is at most 100
characters, but a `VariableState` value summary is bounded by 103 characters,
reaching exactly 103 whenever the serialised value has at least 100
characters (the truncation plus the appended `'...'`); shorter values are
passed through unchanged. -/
theorem claim7_summary_bounds :
    (∀ o : Option (List Char), (summarizeArg o).length ≤ 100) ∧
    (∀ o : Option (List Char), (summarizeValue o).length ≤ 103) ∧
    (∀ s : List Char, 100 ≤ s.length → (summarizeValue (some s)).length = 103) ∧
    (∀ s : List Char, s.length < 100 → summarizeValue (some s) = s) := by
  refine ⟨fun o => ?_, fun o => ?_, fun s h => ?_, fun s h => ?_⟩
  · match o with
    | none => decide
    | some s => simp [summarizeArg, List.length_take]
  · match o with
    | none => decide
    | some s =>
      simp only [summarizeValue]
      split
      · simp
      · simp only [List.length_take] at *
        omega
  · have ht : (s.take 100).length = 100 := by
      rw [List.length_take]
      omega
    simp [summarizeValue, ht]
  · have ht : s.take 100 = s := List.take_of_length_le (by omega)
    have hl : ¬ s.length = 100 := by
      omega
    simp [summarizeValue, ht, hl]

/-- Witness for C7 at a 150-character and a 2-character serialised value. -/
theorem claim7_witness :
    (summarizeValue (some (List.replicate 150 'b'))).length = 103 ∧
    summarizeValue (some ['h', 'i']) = ['h', 'i'] :=
  ⟨claim7_summary_bounds.2.2.1 (List.replicate 150 'b') (by rw [List.length_replicate]; omega),
   claim7_summary_bounds.2.2.2 ['h', 'i'] (by decide)⟩

/-- Claim C5, counterexample: with the id `"abc"` already in flight, a
well-formed JavaScript request reusing `"abc"` is not rejected — the
dispatch starts a second sandbox, and the id then has two active sandboxes,
violating at-most-one active sandbox per execution id. -/
theorem claim5_counterexample :
    executeCodeDispatch ["abc"] { language := "javascript", executionId := "abc" } =
      DispatchResult.sandboxStarted ∧
    (applyDispatch ["abc"] { language := "javascript", executionId := "abc" }).count "abc" = 2 := by
  decide

/-- Claim C5 (amended): `codeExecutionService.executeCode` performs no per-id
admission control.  Its dispatch decision is independent of which execution
ids are in flight; a request is admitted exactly when its language is
registered, and every admitted request adds one more active sandbox for its
id — so a second request reusing an in-flight id starts a second independent
sandbox instead of being rejected as a `DuplicateExecution` conflict. -/
theorem claim5_no_duplicate_check :
    (∀ st1 st2 : List String, ∀ req : ExecRequest,
        executeCodeDispatch st1 req = executeCodeDispatch st2 req) ∧
    (∀ (st : List String) (req : ExecRequest),
        executeCodeDispatch st req = DispatchResult.sandboxStarted ↔
          req.language ∈ supportedLanguages) ∧
    (∀ (st : List String) (req : ExecRequest), req.language ∈ supportedLanguages →
        (applyDispatch st req).count req.executionId = st.count req.executionId + 1) := by
  refine ⟨fun _ _ _ => rfl, fun st req => ?_, fun st req h => ?_⟩
  · simp only [executeCodeDispatch]
    split
    · rename_i hc
      simp_all [List.elem_iff]
    · rename_i hc
      constructor
      · intro h; cases h
      · intro h; exact absurd (by simpa [List.elem_iff] using h) hc
  · have hd : executeCodeDispatch st req = DispatchResult.sandboxStarted := by
      simp [executeCodeDispatch, List.elem_iff, h]
    simp [applyDispatch, hd, List.count_cons_self]

/-- Witness for C5: dispatching a Python request with id `"x"` on top of an
in-flight `"x"` yields two active sandboxes for `"x"`. -/
theorem claim5_witness :
    (applyDispatch ["x"] { language := "python", executionId := "x" }).count "x" =
      (["x"] : List String).count "x" + 1 :=
  claim5_no_duplicate_check.2.2 ["x"] { language := "python", executionId := "x" } (by decide)

/-- Claim C4, counterexample: with `trackMemory` disabled, the instrumented
program's normal exit emits only the success marker and no memory sample at
all, so no "final state snapshot" is emitted on that exit path. -/
theorem claim4_counterexample :
    instrumentedEmission false [] false = [EmitFrame.completeMark] ∧
    memCount (instrumentedEmission false [] false) = 0 := by
  decide

/-- Claim C4 (amended): on every exit path the instrumented program emits
exactly one terminal marker, which is the last frame — the success marker on
normal completion and the error marker when the user code raises; a final
memory snapshot accompanies it only on the normal path with `trackMemory`
enabled (the other memory sample being the initial snapshot, also gated on
`trackMemory`). -/
theorem claim4_markers (tm : Bool) (ue : List EmitFrame) (ur : Bool)
    (h : ∀ f ∈ ue, f ≠ EmitFrame.completeMark ∧ f ≠ EmitFrame.errorMark) :
    terminalCount (instrumentedEmission tm ue ur) = 1 ∧
    (instrumentedEmission tm ue ur).getLast? =
      some (if ur then EmitFrame.errorMark else EmitFrame.completeMark) ∧
    memCount (instrumentedEmission tm ue ur) =
      (if tm then 1 else 0) + memCount ue + (if tm && !ur then 1 else 0) := by
  have hue : terminalCount ue = 0 := by
    rw [terminalCount, List.countP_eq_zero]
    intro f hf
    rcases h f hf with ⟨hc, he⟩
    simp [hc, he]
  refine ⟨?_, ?_, ?_⟩
  · cases tm <;> cases ur <;>
      simp [instrumentedEmission, terminalCount, List.countP_append] <;>
      simpa [terminalCount] using hue
  · cases ur
    · rw [show instrumentedEmission tm ue false =
          ((if tm then [EmitFrame.memorySample] else []) ++ ue ++
            (if tm then [EmitFrame.memorySample] else [])) ++ [EmitFrame.completeMark] by
        simp [instrumentedEmission]]
      simp [List.getLast?_concat]
    · rw [show instrumentedEmission tm ue true =
          ((if tm then [EmitFrame.memorySample] else []) ++ ue) ++ [EmitFrame.errorMark] by
        simp [instrumentedEmission]]
      simp [List.getLast?_concat]
  · cases tm <;> cases ur <;>
      simp [instrumentedEmission, memCount, List.countP_append] <;> ring

/-- Witness for C4: a raising execution with memory tracking and one user
event frame. -/
theorem claim4_witness :
    terminalCount (instrumentedEmission true [EmitFrame.event "x"] true) = 1 ∧
    (instrumentedEmission true [EmitFrame.event "x"] true).getLast? =
      some (if true then EmitFrame.errorMark else EmitFrame.completeMark) ∧
    memCount (instrumentedEmission true [EmitFrame.event "x"] true) =
      (if true then 1 else 0) + memCount [EmitFrame.event "x"] + (if true && !true then 1 else 0) :=
  claim4_markers true [EmitFrame.event "x"] true (by decide)

/-- Claim C6, counterexample: a terminal-error frame whose payload is not
valid JSON does not merely drop the event — the handler's catch block
rejects the execution promise with the parse error, aborting the run. -/
theorem claim6_counterexample :
    parseJson "oops".data = none ∧
    handleMessage ("__METRICS_ERROR__oops".data) = MsgAction.rejectParseFailure ∧
    actionContinues (handleMessage ("__METRICS_ERROR__oops".data)) = false :=
  ⟨rfl, rfl, rfl⟩

/-- Claim C6 (amended): a framed control line whose JSON payload fails to
parse is logged and dropped with the execution continuing for the per-event
(`__METRICS_EVENT__`) and final-aggregate (`__METRICS_COMPLETE__`) sentinels,
but for the terminal-error sentinel (`__METRICS_ERROR__`) the handler rejects
the execution promise with the parse error, aborting the run. -/
theorem claim6_decode_failure (s : List Char) (h : parseJson s = none) :
    handleMessage (eventSentinel ++ s) = MsgAction.logContinue ∧
    handleMessage (completeSentinel ++ s) = MsgAction.logContinue ∧
    handleMessage (errorSentinel ++ s) = MsgAction.rejectParseFailure ∧
    actionContinues (handleMessage (eventSentinel ++ s)) = true ∧
    actionContinues (handleMessage (completeSentinel ++ s)) = true ∧
    actionContinues (handleMessage (errorSentinel ++ s)) = false := by
  have he : handleMessage (eventSentinel ++ s) = MsgAction.logContinue := by
    unfold handleMessage
    rw [show hasSentinel eventSentinel (eventSentinel ++ s) = true from rfl]
    rw [show (eventSentinel ++ s).drop eventSentinel.length = s from List.drop_left _ _]
    simp [h]
  have hc : handleMessage (completeSentinel ++ s) = MsgAction.logContinue := by
    unfold handleMessage
    rw [show hasSentinel eventSentinel (completeSentinel ++ s) = false from rfl]
    rw [show hasSentinel completeSentinel (completeSentinel ++ s) = true from rfl]
    rw [show (completeSentinel ++ s).drop completeSentinel.length = s from List.drop_left _ _]
    simp [h]
  have hr : handleMessage (errorSentinel ++ s) = MsgAction.rejectParseFailure := by
    unfold handleMessage
    rw [show hasSentinel eventSentinel (errorSentinel ++ s) = false from rfl]
    rw [show hasSentinel completeSentinel (errorSentinel ++ s) = false from rfl]
    rw [show hasSentinel errorSentinel (errorSentinel ++ s) = true from rfl]
    rw [show (errorSentinel ++ s).drop errorSentinel.length = s from List.drop_left _ _]
    simp [h]
  exact ⟨he, hc, hr, by rw [he]; rfl, by rw [hc]; rfl, by rw [hr]; rfl⟩

/-- Witness for C6 at the unparsable payload `"oops"`. -/
theorem claim6_witness :
    handleMessage (eventSentinel ++ "oops".data) = MsgAction.logContinue ∧
    handleMessage (completeSentinel ++ "oops".data) = MsgAction.logContinue ∧
    handleMessage (errorSentinel ++ "oops".data) = MsgAction.rejectParseFailure ∧
    actionContinues (handleMessage (eventSentinel ++ "oops".data)) = true ∧
    actionContinues (handleMessage (completeSentinel ++ "oops".data)) = true ∧
    actionContinues (handleMessage (errorSentinel ++ "oops".data)) = false :=
  claim6_decode_failure "oops".data rfl

/-- For nonnegative inputs, a negative percent change means the value
decreased. -/
theorem percentChange_neg_iff (a b : ℚ) (ha : 0 ≤ a) (hb : 0 ≤ b) :
    calculatePercentChange a b < 0 ↔ b < a := by
  unfold calculatePercentChange
  by_cases h : a = 0
  · subst h
    by_cases hb0 : b = 0
    · simp [hb0]
    · simp [hb0]
      constructor
      · intro h2; norm_num at h2
      · intro h2; exact absurd h2 (not_lt.2 hb)
  · have ha0 : 0 < a := lt_of_le_of_ne ha (Ne.symm h)
    rw [if_neg h, div_mul_eq_mul_div, div_neg_iff]
    constructor
    · rintro (⟨_, h2⟩ | ⟨h1, _⟩)
      · exact absurd h2 (not_lt.2 ha)
      · nlinarith
    · intro hba
      right
      exact ⟨by nlinarith, ha0⟩

/-- For nonnegative inputs, a positive percent change means the value
increased. -/
theorem percentChange_pos_iff (a b : ℚ) (ha : 0 ≤ a) (hb : 0 ≤ b) :
    0 < calculatePercentChange a b ↔ a < b := by
  unfold calculatePercentChange
  by_cases h : a = 0
  · subst h
    by_cases hb0 : b = 0
    · simp [hb0]
    · simp [hb0]
      exact lt_of_le_of_ne hb (Ne.symm hb0)
  · have ha0 : 0 < a := lt_of_le_of_ne ha (Ne.symm h)
    rw [if_neg h, div_mul_eq_mul_div, lt_div_iff₀ ha0]
    constructor
    · intro h2; nlinarith
    · intro h2; nlinarith

/-- Reversing the two runs negates each weight term of the improvement
score (for nonnegative metric values). -/
theorem weightTerm_antisymm (w : Int) (a b : ℚ) (ha : 0 ≤ a) (hb : 0 ≤ b) :
    weightTerm w (calculatePercentChange b a) = -weightTerm w (calculatePercentChange a b) := by
  rcases lt_trichotomy a b with h | h | h
  · have h1 : 0 < calculatePercentChange a b := (percentChange_pos_iff a b ha hb).2 h
    have h2 : calculatePercentChange b a < 0 := (percentChange_neg_iff b a hb ha).2 h
    simp [weightTerm, h1, h2, not_lt.2 (le_of_lt h1)]
  · subst h
    have h1 : calculatePercentChange a a = 0 := by
      unfold calculatePercentChange
      by_cases h0 : a = 0 <;> simp [h0]
    simp [weightTerm, h1]
  · have h1 : calculatePercentChange a b < 0 := (percentChange_neg_iff a b ha hb).2 h
    have h2 : 0 < calculatePercentChange b a := (percentChange_pos_iff b a hb ha).2 h
    simp [weightTerm, h1, h2, not_lt.2 (le_of_lt h2)]

/-- Negating the score swaps the verdict. -/
theorem verdict_of_neg_score (s : Int) :
    (if -s > 0 then Verdict.code1 else if -s < 0 then Verdict.code2 else Verdict.tie) =
      swapVerdict (if s > 0 then Verdict.code1 else if s < 0 then Verdict.code2 else Verdict.tie) := by
  rcases lt_trichotomy s 0 with h | h | h
  · have h1 : -s > 0 := by omega
    have h2 : ¬ s > 0 := by omega
    simp [h1, h2, h, swapVerdict]
  · subst h
    simp [swapVerdict]
  · have h1 : ¬ -s > 0 := by omega
    have h2 : -s < 0 := by omega
    have h3 : ¬ s < 0 := by omega
    simp [h1, h2, h, h3, swapVerdict]

/-- Claim C3, counterexample: with runs A = (time 10, memory 5, calls 5) and
B = (time 5, memory 10, calls 10), the weighted score is 3 − 2 − 1 = 0 in
both directions, so both comparisons report `tie` although every delta is
nonzero — refuting "both directions report tie only if all deltas are
exactly zero". -/
theorem claim3_counterexample :
    (compareMetrics
        { executionTime := 10, peakMemory := 5, totalFunctionCalls := 5,
          uniqueFunctions := 0, mostExpensiveFunction := none, mostExpensiveFunctionTime := 0 }
        { executionTime := 5, peakMemory := 10, totalFunctionCalls := 10,
          uniqueFunctions := 0, mostExpensiveFunction := none, mostExpensiveFunctionTime := 0 }).overallImprovement =
      Verdict.tie ∧
    (compareMetrics
        { executionTime := 5, peakMemory := 10, totalFunctionCalls := 10,
          uniqueFunctions := 0, mostExpensiveFunction := none, mostExpensiveFunctionTime := 0 }
        { executionTime := 10, peakMemory := 5, totalFunctionCalls := 5,
          uniqueFunctions := 0, mostExpensiveFunction := none, mostExpensiveFunctionTime := 0 }).overallImprovement =
      Verdict.tie ∧
    (compareMetrics
        { executionTime := 10, peakMemory := 5, totalFunctionCalls := 5,
          uniqueFunctions := 0, mostExpensiveFunction := none, mostExpensiveFunctionTime := 0 }
        { executionTime := 5, peakMemory := 10, totalFunctionCalls := 10,
          uniqueFunctions := 0, mostExpensiveFunction := none, mostExpensiveFunctionTime := 0 }).executionTime.diff = -5 := by
  refine ⟨?_, ?_, by norm_num [compareMetrics]⟩ <;>
    norm_num [compareMetrics, determineOverallImprovement, calculatePercentChange, weightTerm]

/-- Claim C3 (amended): for every pair of aggregated runs, each numeric
`diff` field of the comparison is the negation of the reverse comparison's,
and (for the nonnegative metric values aggregation produces) the overall
verdict swaps (`code1` ↔ `code2`, `tie` ↔ `tie`); but both directions can
report `tie` with nonzero deltas, because the weighted score 3·time + 2·memory
+ 1·calls can cancel to zero. -/
theorem claim3_comparison (m1 m2 : Summary)
    (h1 : 0 ≤ m1.executionTime) (h2 : 0 ≤ m1.peakMemory)
    (h3 : 0 ≤ m2.executionTime) (h4 : 0 ≤ m2.peakMemory) :
    (compareMetrics m2 m1).executionTime.diff = -(compareMetrics m1 m2).executionTime.diff ∧
    (compareMetrics m2 m1).memoryUsage.diff = -(compareMetrics m1 m2).memoryUsage.diff ∧
    (compareMetrics m2 m1).functionCalls.diff = -(compareMetrics m1 m2).functionCalls.diff ∧
    (compareMetrics m2 m1).overallImprovement =
      swapVerdict (compareMetrics m1 m2).overallImprovement := by
  refine ⟨by simp [compareMetrics], by simp [compareMetrics],
    by simp [compareMetrics], ?_⟩
  show determineOverallImprovement _ _ _ = swapVerdict (determineOverallImprovement _ _ _)
  unfold determineOverallImprovement
  rw [weightTerm_antisymm 3 m1.executionTime m2.executionTime h1 h3,
    weightTerm_antisymm 2 m1.peakMemory m2.peakMemory h2 h4,
    weightTerm_antisymm 1 (m1.totalFunctionCalls : ℚ) (m2.totalFunctionCalls : ℚ)
      (Nat.cast_nonneg _) (Nat.cast_nonneg _)]
  rw [show ∀ x y z : Int, -x + -y + -z = -(x + y + z) from fun x y z => by ring]
  exact verdict_of_neg_score _


/-- A nonempty list always has a first-seen maximum. -/
theorem firstSeenMax_cons_isSome (p : String × ℚ) (rest : List (String × ℚ)) :
    ∃ v, firstSeenMax (p :: rest) = some v := by
  simp only [firstSeenMax]
  cases firstSeenMax rest with
  | none => exact ⟨p, rfl⟩
  | some q =>
    by_cases hc : q.2 > p.2
    · exact ⟨q, if_pos hc⟩
    · exact ⟨p, if_neg hc⟩

/-- `firstSeenMax` returns `none` only on the empty list. -/
theorem eq_nil_of_firstSeenMax_eq_none {l : List (String × ℚ)}
    (h : firstSeenMax l = none) : l = [] := by
  cases l with
  | nil => rfl
  | cons p rest =>
    rcases firstSeenMax_cons_isSome p rest with ⟨v, hv⟩
    rw [hv] at h
    cases h

/-- The entry chosen by `firstSeenMax` carries a maximal time. -/
theorem firstSeenMax_le {l : List (String × ℚ)} {n : String} {t : ℚ}
    (h : firstSeenMax l = some (n, t)) : ∀ p ∈ l, p.2 ≤ t := by
  induction l generalizing n t with
  | nil => simp [firstSeenMax] at h
  | cons q rest ih =>
    simp only [firstSeenMax] at h
    split at h
    · rename_i hr
      injection h with h1
      have hrest : rest = [] := eq_nil_of_firstSeenMax_eq_none hr
      subst hrest
      subst h1
      intro p hp
      simp at hp
      simp [hp]
    · rename_i mx hr
      by_cases hc : mx.2 > q.2
      · rw [if_pos hc] at h
        injection h with h1
        subst h1
        intro p hp
        rcases List.mem_cons.mp hp with hpq | hpr
        · subst hpq
          exact le_of_lt hc
        · exact ih hr p hpr
      · rw [if_neg hc] at h
        injection h with h1
        subst h1
        intro p hp
        rcases List.mem_cons.mp hp with hpq | hpr
        · subst hpq
          exact le_refl _
        · have h2 := ih (show firstSeenMax rest = some (mx.1, mx.2) by rw [hr]) p hpr
          exact le_trans h2 (not_lt.1 hc)

/-- Folding the most-expensive selection over entries that never exceed the
accumulated maximum leaves the accumulator unchanged. -/
theorem pickFold_const {l : List (String × ℚ)} {m : ℚ} (h : ∀ p ∈ l, p.2 ≤ m) (b : Option String) :
    l.foldl (fun best p => if p.2 > best.2 then (some p.1, p.2) else best) (b, m) = (b, m) := by
  induction l generalizing b with
  | nil => rfl
  | cons p rest ih =>
    simp only [List.foldl_cons, gt_iff_lt]
    rw [if_neg (not_lt.2 (h p (List.mem_cons_self p rest)))]
    exact ih (fun q hq => h q (List.mem_cons_of_mem p hq)) b

/-- Folding the most-expensive selection from an accumulator strictly below
the maximum lands on the first entry achieving the maximum. -/
theorem pickFold_max {l : List (String × ℚ)} {n : String} {t : ℚ}
    (h : firstSeenMax l = some (n, t)) :
    ∀ (b : Option String) (m : ℚ), m < t →
      l.foldl (fun best p => if p.2 > best.2 then (some p.1, p.2) else best) (b, m) = (some n, t) := by
  induction l generalizing n t with
  | nil => simp [firstSeenMax] at h
  | cons q rest ih =>
    intro b m hm
    simp only [firstSeenMax] at h
    split at h
    · rename_i hr
      injection h with h1
      have hrest : rest = [] := eq_nil_of_firstSeenMax_eq_none hr
      subst hrest
      subst h1
      simp only [List.foldl_cons, List.foldl_nil, gt_iff_lt]
      rw [if_pos hm]
    · rename_i mx hr
      by_cases hc : mx.2 > q.2
      · rw [if_pos hc] at h
        injection h with h1
        subst h1
        simp only [List.foldl_cons, gt_iff_lt]
        by_cases hq : m < q.2
        · rw [if_pos hq]
          exact ih hr (some q.1) q.2 hc
        · rw [if_neg hq]
          exact ih hr b m hm
      · rw [if_neg hc] at h
        injection h with h1
        subst h1
        simp only [List.foldl_cons, gt_iff_lt]
        rw [if_pos hm]
        apply pickFold_const
        intro p hp
        have h2 := firstSeenMax_le (show firstSeenMax rest = some (mx.1, mx.2) by rw [hr]) p hp
        exact le_trans h2 (not_lt.1 hc)

/-- When the maximal cumulative time is positive, the selection loop picks
the first function achieving it. -/
theorem pickMostExpensive_pos {l : List (String × ℚ)} {n : String} {t : ℚ}
    (h : firstSeenMax l = some (n, t)) (ht : 0 < t) :
    pickMostExpensive l = (some n, t) :=
  pickFold_max h none 0 ht

/-- When no cumulative time is positive, the selection loop keeps its
`(null, 0)` initial value. -/
theorem pickMostExpensive_nonpos {l : List (String × ℚ)} {n : String} {t : ℚ}
    (h : firstSeenMax l = some (n, t)) (ht : t ≤ 0) :
    pickMostExpensive l = (none, 0) :=
  pickFold_const (fun p hp => le_trans (firstSeenMax_le h p hp) ht) none

/-- `addCallTime` keeps the key list, appending a fresh key at the end. -/
theorem map_fst_addCallTime (acc : List (String × ℚ)) (c : FCall) :
    (addCallTime acc c).map Prod.fst =
      if c.name ∈ acc.map Prod.fst then acc.map Prod.fst else acc.map Prod.fst ++ [c.name] := by
  have hmem : (acc.any (fun p => p.1 == c.name) = true) ↔ c.name ∈ acc.map Prod.fst := by
    rw [List.any_eq_true]
    constructor
    · rintro ⟨p, hp, he⟩
      exact List.mem_map.mpr ⟨p, hp, by simpa using he⟩
    · intro hin
      rcases List.mem_map.mp hin with ⟨p, hp, he⟩
      exact ⟨p, hp, by simpa using he⟩
  unfold addCallTime
  by_cases ha : acc.any (fun p => p.1 == c.name) = true
  · rw [if_pos ha, if_pos (hmem.mp ha), List.map_map]
    apply List.map_congr_left
    intro p hp
    by_cases hpc : (p.1 == c.name) = true <;> simp [Function.comp, hpc]
  · rw [if_neg ha, if_neg (fun hin => ha (hmem.mpr hin)), List.map_append]
    rfl

/-- The keys of `functionTimes` are the call names in first-seen order. -/
theorem functionTimes_keys (calls : List FCall) :
    (functionTimes calls).map Prod.fst = firstSeenNames calls := by
  suffices h : ∀ acc : List (String × ℚ),
      (List.foldl addCallTime acc calls).map Prod.fst =
        List.foldl (fun ns c => if c.name ∈ ns then ns else ns ++ [c.name]) (acc.map Prod.fst) calls by
    simpa [functionTimes, firstSeenNames] using h []
  induction calls with
  | nil =>
    intro acc
    simp
  | cons c rest ih =>
    intro acc
    rw [List.foldl_cons, List.foldl_cons, ih, map_fst_addCallTime]

/-- Effect of `addCallTime` on a key lookup. -/
theorem findTime_addCallTime (acc : List (String × ℚ)) (c : FCall) (nm : String) :
    findTime (addCallTime acc c) nm =
      if c.name = nm then
        match findTime acc nm with
        | some p => some (p.1, p.2 + c.duration)
        | none => some (c.name, c.duration)
      else findTime acc nm := by
  simp only [findTime, addCallTime]
  by_cases ha : acc.any (fun p => p.1 == c.name) = true
  · rw [if_pos ha, List.find?_map]
    have hcomp : ((fun (p : String × ℚ) => p.1 == nm) ∘
        (fun (p : String × ℚ) => if p.1 == c.name then (p.1, p.2 + c.duration) else p)) =
        (fun (p : String × ℚ) => p.1 == nm) := by
      funext p
      by_cases hpc : (p.1 == c.name) = true <;> simp [Function.comp, hpc]
    rw [hcomp]
    by_cases hc : c.name = nm
    · rw [if_pos hc]
      cases hf : acc.find? (fun p => p.1 == nm) with
      | none =>
        exfalso
        rcases List.any_eq_true.mp ha with ⟨p, hp, hpc⟩
        have hno := List.find?_eq_none.mp hf p hp
        rw [← hc] at hno
        exact hno hpc
      | some p =>
        have hpe : p.1 = c.name := by
          have h1 := List.find?_some hf
          rw [hc]
          simpa using h1
        simp [hpe]
    · rw [if_neg hc]
      cases hf : acc.find? (fun p => p.1 == nm) with
      | none => simp
      | some p =>
        have hpe : p.1 = nm := by
          have h1 := List.find?_some hf
          simpa using h1
        have hpc : ¬ p.1 = c.name := fun hcon => hc (hcon.symm.trans hpe)
        simp [hpc]
  · rw [if_neg ha, List.find?_append]
    by_cases hc : c.name = nm
    · rw [if_pos hc]
      have hnone : acc.find? (fun p => p.1 == nm) = none := by
        rw [List.find?_eq_none]
        intro p hp hcon
        apply ha
        refine List.any_eq_true.mpr ⟨p, hp, ?_⟩
        rw [hc]
        exact hcon
      rw [hnone]
      simp [hc]
    · rw [if_neg hc]
      have h2 : ([(c.name, c.duration)].find? (fun p => p.1 == nm)) = none := by
        simp [hc]
      rw [h2]
      cases acc.find? (fun p => p.1 == nm) <;> rfl

/-- Lookup characterisation of the `functionTimes` fold: starting from any
accumulator, the final value at a key adds the cumulative duration of the
matching calls. -/
theorem findTime_foldl (calls : List FCall) : ∀ (acc : List (String × ℚ)) (nm : String),
    findTime (List.foldl addCallTime acc calls) nm =
      match findTime acc nm with
      | some p => some (p.1, p.2 + nameSum calls nm)
      | none => if nameCount calls nm = 0 then none else some (nm, nameSum calls nm) := by
  induction calls with
  | nil =>
    intro acc nm
    simp only [List.foldl_nil, nameSum, nameCount, List.filter_nil, List.map_nil,
      List.sum_nil, List.length_nil]
    cases findTime acc nm with
    | none => simp
    | some p => simp
  | cons c rest ih =>
    intro acc nm
    rw [List.foldl_cons, ih, findTime_addCallTime]
    by_cases hc : c.name = nm
    · subst hc
      have hcnt : nameCount (c :: rest) c.name = nameCount rest c.name + 1 := by
        simp [nameCount, List.filter_cons]
      have hsum : nameSum (c :: rest) c.name = c.duration + nameSum rest c.name := by
        simp [nameSum, List.filter_cons]
      rw [if_pos rfl, hcnt, hsum]
      cases hf : findTime acc c.name with
      | none => simp [add_comm]
      | some p => simp [add_assoc, add_comm, add_left_comm]
    · have hcnt : nameCount (c :: rest) nm = nameCount rest nm := by
        simp [nameCount, List.filter_cons, hc]
      have hsum : nameSum (c :: rest) nm = nameSum rest nm := by
        simp [nameSum, List.filter_cons, hc]
      rw [if_neg hc, hcnt, hsum]

/-- The `functionTimes` object groups calls by name: the entry at a name is
its cumulative duration, present exactly when the name occurs. -/
theorem findTime_functionTimes (calls : List FCall) (nm : String) :
    findTime (functionTimes calls) nm =
      if nameCount calls nm = 0 then none else some (nm, nameSum calls nm) := by
  have h := findTime_foldl calls [] nm
  simpa [functionTimes, findTime] using h

/-- Concrete evaluation of the `functionTimes` grouping on the example
trace. -/
theorem functionTimes_exampleTrace :
    functionTimes exampleTrace.functionCalls = [("f", 60), ("g", 10)] := by
  have s1 : addCallTime [] { name := "f", caller := none, duration := 10 } = [("f", 10)] := by
    norm_num [addCallTime]
  have s2 : addCallTime [("f", 10)] { name := "g", caller := none, duration := 5 } =
      [("f", 10), ("g", 5)] := by
    norm_num [addCallTime]
    decide
  have s3 : addCallTime [("f", 10), ("g", 5)] { name := "f", caller := none, duration := 20 } =
      [("f", 30), ("g", 5)] := by
    norm_num [addCallTime]
    decide
  have s4 : addCallTime [("f", 30), ("g", 5)] { name := "g", caller := none, duration := 5 } =
      [("f", 30), ("g", 10)] := by
    norm_num [addCallTime]
    decide
  have s5 : addCallTime [("f", 30), ("g", 10)] { name := "f", caller := none, duration := 30 } =
      [("f", 60), ("g", 10)] := by
    norm_num [addCallTime]
    decide
  simp only [functionTimes, exampleTrace]
  rw [List.foldl_cons, s1, List.foldl_cons, s2, List.foldl_cons, s3,
    List.foldl_cons, s4, List.foldl_cons, s5, List.foldl_nil]

/-- Claim C1, counterexample: on a trace with a single `FunctionCall` for
`"f"` of duration 0, the function with maximum cumulative duration is `"f"`
(cumulative 0), yet `mostExpensiveFunction` is `null` — the strict
`time > maxTime` scan starting from 0 never selects a function whose
cumulative time is not positive. -/
theorem claim1_counterexample :
    (calculateSummaryMetrics
        { executionTime := 0, memoryUsage := [],
          functionCalls := [{ name := "f", caller := none, duration := 0 }],
          variableStates := [], executionFlow := [] }).mostExpensiveFunction = none ∧
    firstSeenMax (functionTimes [{ name := "f", caller := none, duration := 0 }]) =
      some ("f", 0) := by
  have h1 : functionTimes [({ name := "f", caller := none, duration := 0 } : FCall)] =
      [("f", 0)] := rfl
  constructor
  · simp only [calculateSummaryMetrics, h1]
    norm_num [pickMostExpensive]
  · rw [h1]
    rfl

/-- Claim C1 (amended): the aggregator groups `FunctionCall` events by name
(insertion order = first-seen order, entry value = cumulative duration) and
selects as `mostExpensiveFunction` the first-seen function of maximum
cumulative duration provided that maximum is positive; when no cumulative
duration is positive it reports `null` with time 0.  On the spec's example
trace (f: 10, 20, 30; g: 5, 5) the summary is `mostExpensiveFunction = "f"`
with cumulative time 60, `uniqueFunctionCount = 2`, `totalFunctionCalls = 5`. -/
theorem claim1_summary :
    ((calculateSummaryMetrics exampleTrace).mostExpensiveFunction = some "f" ∧
     (calculateSummaryMetrics exampleTrace).mostExpensiveFunctionTime = 60 ∧
     (calculateSummaryMetrics exampleTrace).uniqueFunctions = 2 ∧
     (calculateSummaryMetrics exampleTrace).totalFunctionCalls = 5) ∧
    (∀ (calls : List FCall) (nm : String),
        findTime (functionTimes calls) nm =
          if nameCount calls nm = 0 then none else some (nm, nameSum calls nm)) ∧
    (∀ calls : List FCall, (functionTimes calls).map Prod.fst = firstSeenNames calls) ∧
    (∀ (m : RawMetrics) (n : String) (t : ℚ),
        firstSeenMax (functionTimes m.functionCalls) = some (n, t) → 0 < t →
          (calculateSummaryMetrics m).mostExpensiveFunction = some n ∧
          (calculateSummaryMetrics m).mostExpensiveFunctionTime = t) ∧
    (∀ (m : RawMetrics) (n : String) (t : ℚ),
        firstSeenMax (functionTimes m.functionCalls) = some (n, t) → t ≤ 0 →
          (calculateSummaryMetrics m).mostExpensiveFunction = none ∧
          (calculateSummaryMetrics m).mostExpensiveFunctionTime = 0) := by
  have hft := functionTimes_exampleTrace
  have hpick : pickMostExpensive [("f", 60), ("g", 10)] = (some "f", 60) := by
    norm_num [pickMostExpensive]
  refine ⟨⟨?_, ?_, ?_, ?_⟩, findTime_functionTimes, functionTimes_keys, ?_, ?_⟩
  · simp only [calculateSummaryMetrics, hft, hpick]
  · simp only [calculateSummaryMetrics, hft, hpick]
  · simp only [calculateSummaryMetrics]
    decide
  · simp only [calculateSummaryMetrics]
    decide
  · intro m n t h ht
    constructor
    · simp only [calculateSummaryMetrics, pickMostExpensive_pos h ht]
    · simp only [calculateSummaryMetrics, pickMostExpensive_pos h ht]
  · intro m n t h ht
    constructor
    · simp only [calculateSummaryMetrics, pickMostExpensive_nonpos h ht]
    · simp only [calculateSummaryMetrics, pickMostExpensive_nonpos h ht]

/-- Witness for C1: the positive-maximum selection applied to the example
trace itself. -/
theorem claim1_witness :
    (calculateSummaryMetrics exampleTrace).mostExpensiveFunction = some "f" ∧
    (calculateSummaryMetrics exampleTrace).mostExpensiveFunctionTime = 60 :=
  claim1_summary.2.2.2.1 exampleTrace "f" 60
    (by
      rw [functionTimes_exampleTrace]
      norm_num [firstSeenMax])
    (by norm_num)

/-- Every group in an insertion result either carries the inserted line or a
line already present. -/
theorem line_of_mem_insertFlowStep {x : LineGroup} {l : List LineGroup} {s : FlowStep}
    (h : x ∈ insertFlowStep l s) : x.line = s.line ∨ ∃ y ∈ l, x.line = y.line := by
  induction l with
  | nil =>
    simp [insertFlowStep, newLineGroup] at h
    subst h
    exact Or.inl rfl
  | cons g rest ih =>
    simp only [insertFlowStep] at h
    by_cases hg : g.line = s.line
    · rw [if_pos hg] at h
      rcases List.mem_cons.mp h with hx | hx
      · subst hx
        exact Or.inl hg
      · exact Or.inr ⟨x, List.mem_cons_of_mem g hx, rfl⟩
    · rw [if_neg hg] at h
      by_cases hlt : s.line < g.line
      · rw [if_pos hlt] at h
        rcases List.mem_cons.mp h with hx | hx
        · subst hx
          exact Or.inl rfl
        · exact Or.inr ⟨x, hx, rfl⟩
      · rw [if_neg hlt] at h
        rcases List.mem_cons.mp h with hx | hx
        · subst hx
          exact Or.inr ⟨x, List.mem_cons_self x rest, rfl⟩
        · rcases ih hx with h1 | ⟨y, hy, h2⟩
          · exact Or.inl h1
          · exact Or.inr ⟨y, List.mem_cons_of_mem g hy, h2⟩

/-- `insertFlowStep` preserves the strictly-ascending line order (the
integer-key ordering of the `lineExecutions` object). -/
theorem insertFlowStep_sorted {l : List LineGroup} {s : FlowStep}
    (h : List.Pairwise (fun a b => a.line < b.line) l) :
    List.Pairwise (fun a b => a.line < b.line) (insertFlowStep l s) := by
  induction l with
  | nil => simp [insertFlowStep, List.pairwise_singleton]
  | cons g rest ih =>
    rcases List.pairwise_cons.mp h with ⟨hg, hrest⟩
    simp only [insertFlowStep]
    by_cases heq : g.line = s.line
    · rw [if_pos heq]
      exact List.pairwise_cons.mpr ⟨hg, hrest⟩
    · rw [if_neg heq]
      by_cases hlt : s.line < g.line
      · rw [if_pos hlt]
        refine List.pairwise_cons.mpr ⟨?_, List.pairwise_cons.mpr ⟨hg, hrest⟩⟩
        intro y hy
        rcases List.mem_cons.mp hy with hy1 | hy2
        · subst hy1
          exact hlt
        · exact lt_trans hlt (hg y hy2)
      · rw [if_neg hlt]
        refine List.pairwise_cons.mpr ⟨?_, ih hrest⟩
        intro y hy
        rcases line_of_mem_insertFlowStep hy with h1 | ⟨z, hz, h2⟩
        · rw [h1]
          omega
        · rw [h2]
          exact hg z hz

/-- No group is found for a line strictly below every present line. -/
theorem findGroup_eq_none_of_lt {l : List LineGroup} {L : Nat}
    (h : ∀ g ∈ l, L < g.line) : findGroup l L = none := by
  rw [findGroup, List.find?_eq_none]
  intro g hg hcon
  have : g.line = L := by simpa using hcon
  exact absurd (h g hg) (by omega)

/-- Effect of `insertFlowStep` on a line lookup, over a sorted accumulator. -/
theorem findGroup_insertFlowStep {l : List LineGroup} {s : FlowStep} {L : Nat}
    (hs : List.Pairwise (fun a b => a.line < b.line) l) :
    findGroup (insertFlowStep l s) L =
      if s.line = L then
        match findGroup l L with
        | some g => some { g with executionCount := g.executionCount + 1,
                                  totalTime := g.totalTime + s.duration.getD 0,
                                  timestamps := g.timestamps ++ [s.timestamp] }
        | none => some (newLineGroup s)
      else findGroup l L := by
  induction l with
  | nil =>
    simp only [insertFlowStep, findGroup, List.find?]
    by_cases hL : s.line = L
    · have hb : (s.line == L) = true := by simp [hL]
      simp [newLineGroup, hL, hb]
    · have hb : (s.line == L) = false := by simp [hL]
      simp [newLineGroup, hL, hb]
  | cons g rest ih =>
    rcases List.pairwise_cons.mp hs with ⟨hg, hrest⟩
    simp only [insertFlowStep]
    by_cases heq : g.line = s.line
    · rw [if_pos heq]
      by_cases hL : s.line = L
      · rw [if_pos hL]
        have hfind : findGroup (g :: rest) L = some g := by
          simp [findGroup, List.find?_cons_of_pos, heq.trans hL]
        rw [hfind]
        simp [findGroup, List.find?_cons_of_pos, show g.line == L by simp [heq.trans hL]]
      · rw [if_neg hL]
        have hgL : ¬ g.line = L := fun hcon => hL (heq.symm.trans hcon)
        simp [findGroup, List.find?_cons_of_neg, hgL]
    · rw [if_neg heq]
      by_cases hlt : s.line < g.line
      · rw [if_pos hlt]
        by_cases hL : s.line = L
        · rw [if_pos hL]
          have hnone : findGroup (g :: rest) L = none := by
            apply findGroup_eq_none_of_lt
            intro y hy
            rcases List.mem_cons.mp hy with hy1 | hy2
            · subst hy1
              omega
            · have := hg y hy2
              omega
          rw [hnone]
          simp [findGroup, newLineGroup, hL]
        · rw [if_neg hL]
          have hnew : ¬ (newLineGroup s).line = L := by
            simp [newLineGroup, hL]
          simp [findGroup, List.find?_cons_of_neg, hnew]
      · rw [if_neg hlt]
        by_cases hgL : g.line = L
        · have hL : ¬ s.line = L := fun hcon => heq (by omega)
          rw [if_neg hL]
          simp [findGroup, List.find?_cons_of_pos, show g.line == L by simp [hgL]]
        · have h1 : findGroup (g :: insertFlowStep rest s) L = findGroup (insertFlowStep rest s) L := by
            simp [findGroup, List.find?_cons_of_neg, hgL]
          have h2 : findGroup (g :: rest) L = findGroup rest L := by
            simp [findGroup, List.find?_cons_of_neg, hgL]
          rw [h1, h2, ih hrest]

/-- The grouping fold keeps lines strictly ascending. -/
theorem groupExecutionFlow_sorted (steps : List FlowStep) :
    List.Pairwise (fun a b => a.line < b.line) (groupExecutionFlow steps) := by
  suffices h : ∀ acc, List.Pairwise (fun (a b : LineGroup) => a.line < b.line) acc →
      List.Pairwise (fun (a b : LineGroup) => a.line < b.line) (List.foldl insertFlowStep acc steps) by
    exact h [] (by simp)
  induction steps with
  | nil => exact fun acc h => h
  | cons s rest ih =>
    intro acc hacc
    rw [List.foldl_cons]
    exact ih (insertFlowStep acc s) (insertFlowStep_sorted hacc)

/-- Count/total characterisation of the grouping fold: the entry at a line
accumulates the number of steps and the summed `duration || 0` for that
line. -/
theorem findGroup_foldl (steps : List FlowStep) :
    ∀ (acc : List LineGroup) (L : Nat), List.Pairwise (fun a b => a.line < b.line) acc →
      (findGroup (List.foldl insertFlowStep acc steps) L).map
          (fun g => (g.executionCount, g.totalTime)) =
        match (findGroup acc L).map (fun g => (g.executionCount, g.totalTime)) with
        | some (c, t) => some (c + lineCount steps L, t + lineSum steps L)
        | none =>
          if lineCount steps L = 0 then none else some (lineCount steps L, lineSum steps L) := by
  induction steps with
  | nil =>
    intro acc L hacc
    simp only [List.foldl_nil, lineCount, lineSum, List.filter_nil, List.map_nil,
      List.sum_nil, List.length_nil]
    cases findGroup acc L with
    | none => simp
    | some g => simp
  | cons s rest ih =>
    intro acc L hacc
    rw [List.foldl_cons, ih (insertFlowStep acc s) L (insertFlowStep_sorted hacc),
      findGroup_insertFlowStep hacc]
    by_cases hL : s.line = L
    · subst hL
      have hcnt : lineCount (s :: rest) s.line = lineCount rest s.line + 1 := by
        simp [lineCount, List.filter_cons]
      have hsum : lineSum (s :: rest) s.line = s.duration.getD 0 + lineSum rest s.line := by
        simp [lineSum, List.filter_cons]
      rw [if_pos rfl, hcnt, hsum]
      cases hf : findGroup acc s.line with
      | none => simp [newLineGroup, add_comm]
      | some g => simp [add_assoc, add_comm, add_left_comm]
    · have hcnt : lineCount (s :: rest) L = lineCount rest L := by
        simp [lineCount, List.filter_cons, hL]
      have hsum : lineSum (s :: rest) L = lineSum rest L := by
        simp [lineSum, List.filter_cons, hL]
      rw [if_neg hL, hcnt, hsum]

/-- In a line-sorted group list, looking up a member's line returns that
member. -/
theorem findGroup_self {l : List LineGroup} {g : LineGroup}
    (hs : List.Pairwise (fun a b => a.line < b.line) l) (hg : g ∈ l) :
    findGroup l g.line = some g := by
  induction l with
  | nil => cases hg
  | cons x rest ih =>
    rcases List.pairwise_cons.mp hs with ⟨hx, hrest⟩
    rcases List.mem_cons.mp hg with h1 | h2
    · subst h1
      simp [findGroup, List.find?_cons_of_pos]
    · have hne : ¬ x.line = g.line := by
        have := hx g h2
        omega
      have hb2 : (x.line == g.line) = false := by simp [hne]
      simp only [findGroup, List.find?, hb2]
      exact ih hrest h2

/-- Membership through descending insertion. -/
theorem mem_insertByDurationDesc {x e : HeatEntry} {l : List HeatEntry} :
    x ∈ insertByDurationDesc e l ↔ x = e ∨ x ∈ l := by
  induction l with
  | nil => simp [insertByDurationDesc]
  | cons y ys ih =>
    simp only [insertByDurationDesc]
    by_cases hc : y.totalDuration < e.totalDuration
    · rw [if_pos hc]
      simp only [List.mem_cons]
    · rw [if_neg hc]
      simp only [List.mem_cons, ih]
      tauto

/-- Membership through the descending sort. -/
theorem mem_sortByDurationDesc {x : HeatEntry} {l : List HeatEntry} :
    x ∈ sortByDurationDesc l ↔ x ∈ l := by
  induction l with
  | nil => simp [sortByDurationDesc]
  | cons y ys ih =>
    simp only [sortByDurationDesc, List.foldr_cons]
    rw [mem_insertByDurationDesc]
    simp only [List.mem_cons]
    constructor
    · rintro (h | h)
      · exact Or.inl h
      · exact Or.inr ((show x ∈ sortByDurationDesc ys from h) |> ih.mp)
    · rintro (h | h)
      · exact Or.inl h
      · exact Or.inr (ih.mpr h)

/-- Descending insertion preserves the descending order. -/
theorem sorted_insertByDurationDesc {e : HeatEntry} {l : List HeatEntry}
    (h : List.Pairwise (fun a b => b.totalDuration ≤ a.totalDuration) l) :
    List.Pairwise (fun a b => b.totalDuration ≤ a.totalDuration) (insertByDurationDesc e l) := by
  induction l with
  | nil => simp [insertByDurationDesc]
  | cons y ys ih =>
    rcases List.pairwise_cons.mp h with ⟨hy, hys⟩
    simp only [insertByDurationDesc]
    by_cases hc : y.totalDuration < e.totalDuration
    · rw [if_pos hc]
      refine List.pairwise_cons.mpr ⟨?_, h⟩
      intro z hz
      rcases List.mem_cons.mp hz with h1 | h2
      · subst h1
        exact le_of_lt hc
      · exact le_trans (hy z h2) (le_of_lt hc)
    · rw [if_neg hc]
      refine List.pairwise_cons.mpr ⟨?_, ih hys⟩
      intro z hz
      rcases mem_insertByDurationDesc.mp hz with h1 | h2
      · subst h1
        exact not_lt.1 hc
      · exact hy z h2

/-- The client sort produces a list descending by `totalDuration`. -/
theorem sorted_sortByDurationDesc (l : List HeatEntry) :
    List.Pairwise (fun a b => b.totalDuration ≤ a.totalDuration) (sortByDurationDesc l) := by
  induction l with
  | nil => simp [sortByDurationDesc]
  | cons y ys ih =>
    simp only [sortByDurationDesc, List.foldr_cons]
    exact sorted_insertByDurationDesc ih

/-- Claim C2, counterexample: on the trace with one `LineExecution` for line
4 and three for line 7, the aggregator's heatmap (`processExecutionFlow`)
contains BOTH lines — line 4 with `executionCount = 1` included, in
ascending line order — refuting the `executionCount > 1` filter and the
descending-duration sort at this stage. -/
theorem claim2_counterexample :
    (processExecutionFlow exampleFlow).map (fun e => (e.line, e.executionCount)) =
      [(4, 1), (7, 3)] :=
  rfl

/-- Claim C2 (amended): the server aggregator `processExecutionFlow` groups
`LineExecution` events by line number — each entry's `executionCount`,
`totalTime` and `averageTime = totalTime / executionCount` summarise exactly
the steps on its line, every executed line is present (no
`executionCount > 1` filter), and entries are in ascending line order (the
integer-key object order), not descending by duration.  The
`executionCount > 1` filter and the descending `totalDuration` sort are
applied client-side by `generateHeatmapData`, where the example trace
(one step on line 4, three on line 7) yields a heatmap containing only
line 7 with `executionCount = 3`. -/
theorem claim2_heatmap :
    (∀ steps : List FlowStep,
        List.Pairwise (fun (a b : LineStat) => a.line < b.line) (processExecutionFlow steps)) ∧
    (∀ (steps : List FlowStep) (e : LineStat), e ∈ processExecutionFlow steps →
        e.executionCount = lineCount steps e.line ∧
        e.totalTime = lineSum steps e.line ∧
        e.averageTime = lineSum steps e.line / (lineCount steps e.line : ℚ)) ∧
    (∀ (steps : List FlowStep) (L : Nat), lineCount steps L ≠ 0 →
        ∃ e ∈ processExecutionFlow steps, e.line = L) ∧
    (∀ (steps : List FlowStep) (e : HeatEntry), e ∈ generateHeatmapData steps →
        1 < e.executionCount) ∧
    (∀ steps : List FlowStep,
        List.Pairwise (fun (a b : HeatEntry) => b.totalDuration ≤ a.totalDuration)
          (generateHeatmapData steps)) ∧
    generateHeatmapData exampleFlow =
      [{ line := 7, code := "b", executionCount := 3, totalDuration := 9, avgDuration := 3 }] := by
  have hstats : ∀ (steps : List FlowStep) (g : LineGroup), g ∈ groupExecutionFlow steps →
      g.executionCount = lineCount steps g.line ∧ g.totalTime = lineSum steps g.line := by
    intro steps g hg
    have hfind : findGroup (groupExecutionFlow steps) g.line = some g :=
      findGroup_self (groupExecutionFlow_sorted steps) hg
    have h := findGroup_foldl steps [] g.line (by simp)
    have hnil : findGroup ([] : List LineGroup) g.line = none := rfl
    rw [show List.foldl insertFlowStep [] steps = groupExecutionFlow steps from rfl,
      hfind, hnil] at h
    simp only [Option.map_some', Option.map_none'] at h
    split at h
    · simp at h
    · simp only [Option.some.injEq, Prod.mk.injEq] at h
      exact h
  refine ⟨?_, ?_, ?_, ?_, ?_, ?_⟩
  · intro steps
    rw [processExecutionFlow, List.pairwise_map]
    exact groupExecutionFlow_sorted steps
  · intro steps e he
    rw [processExecutionFlow] at he
    rcases List.mem_map.mp he with ⟨g, hg, hge⟩
    rcases hstats steps g hg with ⟨hc, ht⟩
    subst hge
    exact ⟨hc, ht, by rw [hc, ht]⟩
  · intro steps L hL
    have h := findGroup_foldl steps [] L (by simp)
    have hnil : findGroup ([] : List LineGroup) L = none := rfl
    rw [show List.foldl insertFlowStep [] steps = groupExecutionFlow steps from rfl, hnil] at h
    simp only [Option.map_none'] at h
    rw [if_neg hL] at h
    cases hf : findGroup (groupExecutionFlow steps) L with
    | none =>
      rw [hf] at h
      simp at h
    | some g =>
      have hf2 : (groupExecutionFlow steps).find? (fun g => g.line == L) = some g := hf
      have hgl : g.line = L := by
        have h1 := List.find?_some hf2
        simpa using h1
      refine ⟨⟨g.line, g.code, g.executionCount, g.totalTime, g.timestamps,
        g.totalTime / (g.executionCount : ℚ)⟩, ?_, hgl⟩
      rw [processExecutionFlow]
      exact List.mem_map.mpr ⟨g, List.mem_of_find?_eq_some hf2, rfl⟩
  · intro steps e he
    simp only [generateHeatmapData] at he
    rw [mem_sortByDurationDesc] at he
    rcases List.mem_map.mp he with ⟨g, hg, hge⟩
    have hlen := (List.mem_filter.mp hg).2
    subst hge
    simpa using hlen
  · intro steps
    exact sorted_sortByDurationDesc _
  · have hg : exampleFlow.foldl insertClientStep [] =
        [⟨4, "a", [(0, 1)]⟩, ⟨7, "b", [(1, 2), (2, 3), (3, 4)]⟩] := rfl
    simp only [generateHeatmapData, hg]
    norm_num [sortByDurationDesc, insertByDurationDesc]

/-- Witness for C2: instantiating the existence part at line 7 of the
example trace and the filter bound at its line-7 heatmap row. -/
theorem claim2_witness :
    (∃ e ∈ processExecutionFlow exampleFlow, e.line = 7) ∧
    (1 < ({ line := 7, code := "b", executionCount := 3, totalDuration := 9,
            avgDuration := 3 } : HeatEntry).executionCount) :=
  ⟨claim2_heatmap.2.2.1 exampleFlow 7 (by decide),
   claim2_heatmap.2.2.2.1 exampleFlow
     { line := 7, code := "b", executionCount := 3, totalDuration := 9, avgDuration := 3 }
     (by
       rw [claim2_heatmap.2.2.2.2.2]
       exact List.mem_singleton.mpr rfl)⟩

/-- Membership in the node `Set` after one `add`. -/
theorem mem_addNode {ns : List String} {x y : String} : x ∈ addNode ns y ↔ x ∈ ns ∨ x = y := by
  unfold addNode
  by_cases h : y ∈ ns
  · rw [if_pos h]
    constructor
    · exact Or.inl
    · rintro (h1 | h1)
      · exact h1
      · subst h1
        exact h
  · rw [if_neg h]
    simp

/-- The call-graph node set collects exactly the (defaulted) callers and the
callee names. -/
theorem mem_callGraphNodes (calls : List FCall) (x : String) :
    x ∈ callGraphNodes calls ↔ ∃ c ∈ calls, x = callSource c ∨ x = c.name := by
  suffices h : ∀ acc : List String,
      x ∈ List.foldl (fun ns c => addNode (addNode ns (callSource c)) c.name) acc calls ↔
        x ∈ acc ∨ ∃ c ∈ calls, x = callSource c ∨ x = c.name by
    simpa [callGraphNodes] using h []
  induction calls with
  | nil =>
    intro acc
    simp
  | cons c rest ih =>
    intro acc
    rw [List.foldl_cons, ih, mem_addNode, mem_addNode]
    simp only [List.mem_cons]
    constructor
    · rintro (((h1 | h1) | h1) | ⟨c2, hc2, h2⟩)
      · exact Or.inl h1
      · exact Or.inr ⟨c, Or.inl rfl, Or.inl h1⟩
      · exact Or.inr ⟨c, Or.inl rfl, Or.inr h1⟩
      · exact Or.inr ⟨c2, Or.inr hc2, h2⟩
    · rintro (h1 | ⟨c2, hc2 | hc2, h2⟩)
      · exact Or.inl (Or.inl (Or.inl h1))
      · subst hc2
        rcases h2 with h2 | h2
        · exact Or.inl (Or.inl (Or.inr h2))
        · exact Or.inl (Or.inr h2)
      · exact Or.inr ⟨c2, hc2, h2⟩

/-- Effect of `addEdge` on an edge-key lookup. -/
theorem findEdge_addEdge (acc : List EdgeAcc) (c : FCall) (s t : String) :
    findEdge (addEdge acc c) s t =
      if callSource c = s ∧ c.name = t then
        match findEdge acc s t with
        | some e => some { e with count := e.count + 1, totalDuration := e.totalDuration + c.duration }
        | none => some { source := callSource c, target := c.name, count := 1, totalDuration := c.duration }
      else findEdge acc s t := by
  simp only [findEdge, addEdge]
  by_cases ha : acc.any (fun e => e.source == callSource c && e.target == c.name) = true
  · rw [if_pos ha, List.find?_map]
    have hcomp : ((fun (e : EdgeAcc) => e.source == s && e.target == t) ∘
        (fun (e : EdgeAcc) => if e.source == callSource c && e.target == c.name then
          { e with count := e.count + 1, totalDuration := e.totalDuration + c.duration }
        else e)) = (fun (e : EdgeAcc) => e.source == s && e.target == t) := by
      funext e
      by_cases he : (e.source == callSource c && e.target == c.name) = true <;>
        simp [Function.comp, he]
    rw [hcomp]
    by_cases hst : callSource c = s ∧ c.name = t
    · rw [if_pos hst]
      cases hf : acc.find? (fun e => e.source == s && e.target == t) with
      | none =>
        exfalso
        rcases List.any_eq_true.mp ha with ⟨e, he, hkey⟩
        have hno := List.find?_eq_none.mp hf e he
        apply hno
        rw [← hst.1, ← hst.2]
        exact hkey
      | some e =>
        have hkey := List.find?_some hf
        have hk1 : e.source = s ∧ e.target = t := by
          simpa [Bool.and_eq_true] using hkey
        have hmatch : (e.source == callSource c && e.target == c.name) = true := by
          simp [hk1.1, hk1.2, hst.1, hst.2]
        simp only [Option.map_some']
        rw [if_pos hmatch]
    · rw [if_neg hst]
      cases hf : acc.find? (fun e => e.source == s && e.target == t) with
      | none => simp
      | some e =>
        have hkey := List.find?_some hf
        have hk1 : e.source = s ∧ e.target = t := by
          simpa [Bool.and_eq_true] using hkey
        have hmatch : ¬ (e.source == callSource c && e.target == c.name) = true := by
          intro hcon
          rcases (by simpa [Bool.and_eq_true] using hcon :
            e.source = callSource c ∧ e.target = c.name) with ⟨h1, h2⟩
          exact hst ⟨h1.symm.trans hk1.1, h2.symm.trans hk1.2⟩
        simp only [Option.map_some']
        rw [if_neg hmatch]
  · rw [if_neg ha, List.find?_append]
    by_cases hst : callSource c = s ∧ c.name = t
    · rw [if_pos hst]
      have hnone : acc.find? (fun e => e.source == s && e.target == t) = none := by
        rw [List.find?_eq_none]
        intro e he hcon
        apply ha
        refine List.any_eq_true.mpr ⟨e, he, ?_⟩
        rw [hst.1, hst.2]
        exact hcon
      rw [hnone]
      simp [List.find?, hst.1, hst.2]
    · rw [if_neg hst]
      have hb : ¬ (callSource c == s && c.name == t) = true := by
        simpa [Bool.and_eq_true] using hst
      have hb2 : (callSource c == s && c.name == t) = false :=
        Bool.eq_false_iff.mpr hb
      have hsingle : (List.find? (fun e => e.source == s && e.target == t)
          [({ source := callSource c, target := c.name, count := 1, totalDuration := c.duration } : EdgeAcc)]) = none := by
        simp only [List.find?]
        rw [show (({ source := callSource c, target := c.name, count := 1, totalDuration := c.duration } : EdgeAcc).source == s && ({ source := callSource c, target := c.name, count := 1, totalDuration := c.duration } : EdgeAcc).target == t) = false from hb2]
      rw [hsingle]
      cases acc.find? (fun e => e.source == s && e.target == t) <;> rfl

/-- Count/total characterisation of the `callCountMap` fold. -/
theorem findEdge_foldl (calls : List FCall) : ∀ (acc : List EdgeAcc) (s t : String),
    findEdge (List.foldl addEdge acc calls) s t =
      match findEdge acc s t with
      | some e => some { e with count := e.count + edgeCount calls s t,
                                totalDuration := e.totalDuration + edgeSum calls s t }
      | none =>
        if edgeCount calls s t = 0 then none
        else some { source := s, target := t, count := edgeCount calls s t,
                    totalDuration := edgeSum calls s t } := by
  induction calls with
  | nil =>
    intro acc s t
    simp only [List.foldl_nil, edgeCount, edgeSum, List.filter_nil, List.map_nil,
      List.sum_nil, List.length_nil]
    cases findEdge acc s t with
    | none => simp
    | some e => simp
  | cons c rest ih =>
    intro acc s t
    rw [List.foldl_cons, ih, findEdge_addEdge]
    by_cases hk : callSource c = s ∧ c.name = t
    · have hcnt : edgeCount (c :: rest) s t = edgeCount rest s t + 1 := by
        simp [edgeCount, List.filter_cons, hk.1, hk.2]
      have hsum : edgeSum (c :: rest) s t = c.duration + edgeSum rest s t := by
        simp [edgeSum, List.filter_cons, hk.1, hk.2]
      rw [if_pos hk, hcnt, hsum]
      cases hf : findEdge acc s t with
      | none => simp [hk.1, hk.2, add_comm]
      | some e => simp [add_assoc, add_comm, add_left_comm]
    · have hb : ¬ (callSource c == s && c.name == t) = true := by
        simpa [Bool.and_eq_true] using hk
      have hcnt : edgeCount (c :: rest) s t = edgeCount rest s t := by
        simp only [edgeCount, List.filter_cons]
        rw [if_neg hb]
      have hsum : edgeSum (c :: rest) s t = edgeSum rest s t := by
        simp only [edgeSum, List.filter_cons]
        rw [if_neg hb]
      rw [if_neg hk, hcnt, hsum]

/-- `addEdge` keeps the (source, target) keys of the accumulator pairwise
distinct. -/
theorem keys_nodup_addEdge {acc : List EdgeAcc} {c : FCall}
    (h : (acc.map (fun e => (e.source, e.target))).Nodup) :
    ((addEdge acc c).map (fun e => (e.source, e.target))).Nodup := by
  unfold addEdge
  by_cases ha : acc.any (fun e => e.source == callSource c && e.target == c.name) = true
  · rw [if_pos ha, List.map_map]
    have hcomp : ((fun (e : EdgeAcc) => (e.source, e.target)) ∘
        (fun (e : EdgeAcc) => if e.source == callSource c && e.target == c.name then
          { e with count := e.count + 1, totalDuration := e.totalDuration + c.duration }
        else e)) = (fun (e : EdgeAcc) => (e.source, e.target)) := by
      funext e
      by_cases he : (e.source == callSource c && e.target == c.name) = true <;>
        simp [Function.comp, he]
    rw [hcomp]
    exact h
  · rw [if_neg ha, List.map_append]
    rw [List.nodup_append]
    refine ⟨h, List.nodup_singleton _, ?_⟩
    intro x hx hx2
    simp only [List.map_cons, List.map_nil, List.mem_singleton] at hx2
    rcases List.mem_map.mp hx with ⟨e, he, hkey⟩
    apply ha
    refine List.any_eq_true.mpr ⟨e, he, ?_⟩
    have h1 : e.source = callSource c ∧ e.target = c.name := by
      have := hkey.trans hx2
      simpa [Prod.ext_iff] using this
    simp [h1.1, h1.2]

/-- The accumulated edge map has pairwise-distinct (source, target) keys. -/
theorem callCountMap_keys_nodup (calls : List FCall) :
    ((callCountMap calls).map (fun e => (e.source, e.target))).Nodup := by
  suffices h : ∀ acc : List EdgeAcc, (acc.map (fun e => (e.source, e.target))).Nodup →
      ((List.foldl addEdge acc calls).map (fun e => (e.source, e.target))).Nodup by
    exact h [] (by simp)
  induction calls with
  | nil => exact fun acc h => h
  | cons c rest ih =>
    intro acc hacc
    rw [List.foldl_cons]
    exact ih (addEdge acc c) (keys_nodup_addEdge hacc)

/-- In a key-distinct edge list, looking up a member's key returns that
member. -/
theorem findEdge_self {acc : List EdgeAcc} {e : EdgeAcc}
    (h : (acc.map (fun e => (e.source, e.target))).Nodup) (he : e ∈ acc) :
    findEdge acc e.source e.target = some e := by
  induction acc with
  | nil => cases he
  | cons x rest ih =>
    rw [List.map_cons, List.nodup_cons] at h
    obtain ⟨hx, hrest⟩ := h
    rcases List.mem_cons.mp he with h1 | h2
    · subst h1
      simp [findEdge, List.find?]
    · have hne : ¬ ((x.source, x.target) = (e.source, e.target)) := by
        intro hcon
        apply hx
        exact hcon ▸ List.mem_map.mpr ⟨e, h2, rfl⟩
      have hb : (x.source == e.source && x.target == e.target) = false := by
        rw [Bool.eq_false_iff]
        intro hcon
        apply hne
        rcases (by simpa [Bool.and_eq_true] using hcon :
          x.source = e.source ∧ x.target = e.target) with ⟨ha1, ha2⟩
        rw [ha1, ha2]
      simp only [findEdge, List.find?, hb]
      exact ih hrest h2

/-- Claim C8, counterexample: for a trace whose single call carries an
explicit caller, the node set is just `{"main", "f"}` — the synthetic root
`"global"` is NOT added, refuting "node set = distinct caller/callee names
plus the synthetic root global". -/
theorem claim8_counterexample :
    (generateCallGraph [{ name := "f", caller := some "main", duration := 2 }]).nodes =
      ["main", "f"] ∧
    ((generateCallGraph [{ name := "f", caller := some "main", duration := 2 }]).nodes.contains
      "global") = false := by
  constructor
  · rfl
  · decide

/-- Claim C8 (amended): the call graph's node set is the set of distinct
source names (each `caller`, defaulting to `"global"` only when the caller is
absent or empty) together with the callee names — `"global"` appears only as
such a default, not unconditionally; edges are deduplicated by
(source, target) pair, and each emitted link carries `count` = the number of
calls with that pair and `averageDuration` = their cumulative duration
divided by the count (the cumulative total itself is not an emitted field). -/
theorem claim8_call_graph :
    (∀ (calls : List FCall) (x : String),
        x ∈ (generateCallGraph calls).nodes ↔ ∃ c ∈ calls, x = callSource c ∨ x = c.name) ∧
    (∀ calls : List FCall,
        ((generateCallGraph calls).links.map (fun l => (l.source, l.target))).Nodup) ∧
    (∀ (calls : List FCall) (l : GraphLink), l ∈ (generateCallGraph calls).links →
        l.count = edgeCount calls l.source l.target ∧ l.count ≠ 0 ∧
        l.averageDuration = edgeSum calls l.source l.target / (l.count : ℚ)) ∧
    (∀ (calls : List FCall) (c : FCall), c ∈ calls → c.caller = none →
        "global" ∈ (generateCallGraph calls).nodes) := by
  have hlinks : ∀ (calls : List FCall) (e : EdgeAcc), e ∈ callCountMap calls →
      e.count = edgeCount calls e.source e.target ∧ e.count ≠ 0 ∧
      e.totalDuration = edgeSum calls e.source e.target := by
    intro calls e he
    have hfind : findEdge (callCountMap calls) e.source e.target = some e :=
      findEdge_self (callCountMap_keys_nodup calls) he
    have h := findEdge_foldl calls [] e.source e.target
    have hnil : findEdge ([] : List EdgeAcc) e.source e.target = none := rfl
    rw [show List.foldl addEdge [] calls = callCountMap calls from rfl, hfind, hnil] at h
    split at h
    · rename_i e2 hcnt
      exact absurd hcnt (by simp)
    · by_cases hz : edgeCount calls e.source e.target = 0
      · rw [if_pos hz] at h
        simp at h
      · rw [if_neg hz] at h
        have h2 := Option.some.inj h
        exact ⟨by rw [h2], by rw [h2]; exact hz, by rw [h2]⟩
  refine ⟨?_, ?_, ?_, ?_⟩
  · intro calls x
    exact mem_callGraphNodes calls x
  · intro calls
    have h : ((generateCallGraph calls).links.map (fun l => (l.source, l.target))) =
        ((callCountMap calls).map (fun e => (e.source, e.target))) := by
      simp only [generateCallGraph, List.map_map]
      rfl
    rw [h]
    exact callCountMap_keys_nodup calls
  · intro calls l hl
    simp only [generateCallGraph] at hl
    rcases List.mem_map.mp hl with ⟨e, he, hle⟩
    rcases hlinks calls e he with ⟨hc, hnz, ht⟩
    subst hle
    exact ⟨hc, hnz, by rw [ht, hc]⟩
  · intro calls c hc hcaller
    show "global" ∈ callGraphNodes calls
    rw [mem_callGraphNodes]
    refine ⟨c, hc, Or.inl ?_⟩
    simp [callSource, hcaller]

/-- Witness for C8: a caller-less call puts `"global"` in the node set. -/
theorem claim8_witness :
    "global" ∈ (generateCallGraph [{ name := "f", caller := none, duration := 4 }]).nodes :=
  claim8_call_graph.2.2.2 [{ name := "f", caller := none, duration := 4 }]
    { name := "f", caller := none, duration := 4 } (by simp) rfl

/-- The reassignment scan never records a tracking call for `i`, `j` or
`k`: the callback's guard returns the match unchanged for those names. -/
theorem reassignScan_skips (fuel : Nat) : ∀ (cs : List Char) (nm : String),
    nm ∈ (reassignScan fuel cs).2 → ¬ nm = "i" ∧ ¬ nm = "j" ∧ ¬ nm = "k" := by
  induction fuel with
  | zero =>
    intro cs nm hnm
    simp [reassignScan] at hnm
  | succ fuel ih =>
    intro cs nm hnm
    cases cs with
    | nil => simp [reassignScan] at hnm
    | cons c rest =>
      simp only [reassignScan] at hnm
      split at hnm
      · exact ih rest nm hnm
      · rename_i name value matched remainder heq
        split at hnm
        · exact ih _ nm hnm
        · rename_i hg
          have hni : ¬ name = ['i'] := fun hcon => hg (by simp [hcon])
          have hnj : ¬ name = ['j'] := fun hcon => hg (by simp [hcon])
          have hnk : ¬ name = ['k'] := fun hcon => hg (by simp [hcon])
          rcases List.mem_cons.mp hnm with h1 | h2
          · subst h1
            refine ⟨?_, ?_, ?_⟩
            · intro hcon
              exact hni (by simpa using congrArg String.data hcon)
            · intro hcon
              exact hnj (by simpa using congrArg String.data hcon)
            · intro hcon
              exact hnk (by simpa using congrArg String.data hcon)
          · exact ih _ nm h2

/-- Claim C10: the plain-reassignment rewrite of `instrumentVariables` never
injects a `trackVariable` call (hence never emits a `VariableState` event
from this pass) for a variable named `i`, `j` or `k`, while still tracking
other names — e.g. on `"x = 5; i = 2;"` only `x` is tracked. -/
theorem claim10_loop_counters :
    (∀ code : List Char,
        ((instrumentReassignments code).2.contains "i") = false ∧
        ((instrumentReassignments code).2.contains "j") = false ∧
        ((instrumentReassignments code).2.contains "k") = false) ∧
    (instrumentReassignments ("x = 5; i = 2; k = x;".data)).2 = ["x"] := by
  constructor
  · intro code
    refine ⟨?_, ?_, ?_⟩ <;> rw [Bool.eq_false_iff] <;> intro hc
    · exact (reassignScan_skips code.length code "i" (List.elem_iff.mp hc)).1 rfl
    · exact (reassignScan_skips code.length code "j" (List.elem_iff.mp hc)).2.1 rfl
    · exact (reassignScan_skips code.length code "k" (List.elem_iff.mp hc)).2.2 rfl
  · rfl

/-- Witness for C3 at the concrete runs (time 10, memory 5, calls 5) and
(time 5, memory 10, calls 10). -/
theorem claim3_witness :
    (compareMetrics
        { executionTime := 5, peakMemory := 10, totalFunctionCalls := 10,
          uniqueFunctions := 0, mostExpensiveFunction := none, mostExpensiveFunctionTime := 0 }
        { executionTime := 10, peakMemory := 5, totalFunctionCalls := 5,
          uniqueFunctions := 0, mostExpensiveFunction := none,
          mostExpensiveFunctionTime := 0 }).executionTime.diff =
      -(compareMetrics
        { executionTime := 10, peakMemory := 5, totalFunctionCalls := 5,
          uniqueFunctions := 0, mostExpensiveFunction := none, mostExpensiveFunctionTime := 0 }
        { executionTime := 5, peakMemory := 10, totalFunctionCalls := 10,
          uniqueFunctions := 0, mostExpensiveFunction := none,
          mostExpensiveFunctionTime := 0 }).executionTime.diff ∧
    (compareMetrics
        { executionTime := 5, peakMemory := 10, totalFunctionCalls := 10,
          uniqueFunctions := 0, mostExpensiveFunction := none, mostExpensiveFunctionTime := 0 }
        { executionTime := 10, peakMemory := 5, totalFunctionCalls := 5,
          uniqueFunctions := 0, mostExpensiveFunction := none,
          mostExpensiveFunctionTime := 0 }).memoryUsage.diff =
      -(compareMetrics
        { executionTime := 10, peakMemory := 5, totalFunctionCalls := 5,
          uniqueFunctions := 0, mostExpensiveFunction := none, mostExpensiveFunctionTime := 0 }
        { executionTime := 5, peakMemory := 10, totalFunctionCalls := 10,
          uniqueFunctions := 0, mostExpensiveFunction := none,
          mostExpensiveFunctionTime := 0 }).memoryUsage.diff ∧
    (compareMetrics
        { executionTime := 5, peakMemory := 10, totalFunctionCalls := 10,
          uniqueFunctions := 0, mostExpensiveFunction := none, mostExpensiveFunctionTime := 0 }
        { executionTime := 10, peakMemory := 5, totalFunctionCalls := 5,
          uniqueFunctions := 0, mostExpensiveFunction := none,
          mostExpensiveFunctionTime := 0 }).functionCalls.diff =
      -(compareMetrics
        { executionTime := 10, peakMemory := 5, totalFunctionCalls := 5,
          uniqueFunctions := 0, mostExpensiveFunction := none, mostExpensiveFunctionTime := 0 }
        { executionTime := 5, peakMemory := 10, totalFunctionCalls := 10,
          uniqueFunctions := 0, mostExpensiveFunction := none,
          mostExpensiveFunctionTime := 0 }).functionCalls.diff ∧
    (compareMetrics
        { executionTime := 5, peakMemory := 10, totalFunctionCalls := 10,
          uniqueFunctions := 0, mostExpensiveFunction := none, mostExpensiveFunctionTime := 0 }
        { executionTime := 10, peakMemory := 5, totalFunctionCalls := 5,
          uniqueFunctions := 0, mostExpensiveFunction := none,
          mostExpensiveFunctionTime := 0 }).overallImprovement =
      swapVerdict (compareMetrics
        { executionTime := 10, peakMemory := 5, totalFunctionCalls := 5,
          uniqueFunctions := 0, mostExpensiveFunction := none, mostExpensiveFunctionTime := 0 }
        { executionTime := 5, peakMemory := 10, totalFunctionCalls := 10,
          uniqueFunctions := 0, mostExpensiveFunction := none,
          mostExpensiveFunctionTime := 0 }).overallImprovement :=
  claim3_comparison
    { executionTime := 10, peakMemory := 5, totalFunctionCalls := 5,
      uniqueFunctions := 0, mostExpensiveFunction := none, mostExpensiveFunctionTime := 0 }
    { executionTime := 5, peakMemory := 10, totalFunctionCalls := 10,
      uniqueFunctions := 0, mostExpensiveFunction := none, mostExpensiveFunctionTime := 0 }
    (by norm_num) (by norm_num) (by norm_num) (by norm_num)
